import Mathlib

/-!
A verification development for a CHIP-8 emulator written in Rust.

The Rust modules `emulator/registers.rs`, `emulator/stack.rs`,
`emulator/memory.rs`, `emulator/timers.rs`, `hardware/display.rs`,
`hardware/input.rs` and `emulator/cpu.rs` are shallowly embedded below.

Conventions of the embedding:
* Machine integers (`u8`, `u16`, `usize`) are modelled as `Nat`; wherever the
  Rust code wraps (`wrapping_add`, `overflowing_add`, `as u8` casts, the
  release-profile semantics of `+` on machine integers) the embedding takes
  the result modulo `256` or `65536` explicitly.
* Nibble-aligned bit masking is translated to division and modulo arithmetic:
  for example `(i & 0xF000) >> 12` becomes `i / 4096 % 16` and `i & 0x0FFF`
  becomes `i % 4096`, which agree with the bit operations on all naturals.
* Fallible Rust functions returning `Result` are embedded as `Except`; the
  `?` operator is an explicit `match` on the intermediate result.
* `Memory`'s backing byte array is modelled as a total function from
  addresses to bytes; element assignment becomes a pointwise function update.
* `Timers::update` consults the wall clock; it is modelled by an explicit
  count of elapsed 60 Hz periods, exactly as `Timers::update_by_ticks` does.
* The random generator used by opcode `Cxnn` is modelled as a pre-drawn
  stream of bytes carried in the CPU state.
* Audio output (`play_beep` / `stop_beep`) is external I/O with no effect on
  the engine state and is not represented.
-/

namespace Chip8

/-- Embedding of `EmulatorError` from `src/error.rs` (engine variants). -/
inductive EmulatorError where
  | invalidMemoryAccess (address : Nat)
  | unknownInstruction (opcode : Nat)
  | romTooLarge (size maxSize : Nat)
  | romEmpty
  | stackOverflow
  | stackUnderflow
  | invalidRegister (index : Nat)
  deriving Repr, DecidableEq

/-- Embedding of `DisplayError` from `src/hardware/display.rs`. -/
inductive DisplayError where
  | invalidCoordinates (x y : Nat)
  | notInitialized
  | renderError
  | invalidSpriteData
  deriving Repr, DecidableEq

/-! ## Registers (`src/emulator/registers.rs`) -/

/-- `NUM_REGISTERS` -/
def NUM_REGISTERS : Nat := 16

/-- `FLAG_REGISTER` -/
def FLAG_REGISTER : Nat := 15

/-- The register set: `v` is the 16-entry array `V0..VF` (a list of bytes),
`i` the index register, `pc` the program counter, `sp` the stack-pointer
shadow register. -/
structure Registers where
  v : List Nat
  i : Nat
  pc : Nat
  sp : Nat
  deriving Repr, DecidableEq

/-- `Registers::new` -/
def Registers.new : Registers :=
  { v := List.replicate NUM_REGISTERS 0, i := 0, pc := 0x200, sp := 0 }

/-- `Registers::get_v` -/
def Registers.get_v (r : Registers) (index : Nat) : Except EmulatorError Nat :=
  if index ≥ NUM_REGISTERS then .error (.invalidRegister index)
  else .ok (r.v.getD index 0)

/-- `Registers::set_v` -/
def Registers.set_v (r : Registers) (index value : Nat) :
    Except EmulatorError Registers :=
  if index ≥ NUM_REGISTERS then .error (.invalidRegister index)
  else .ok { r with v := r.v.set index value }

/-- `Registers::get_flag` -/
def Registers.get_flag (r : Registers) : Nat :=
  r.v.getD FLAG_REGISTER 0

/-- `Registers::set_flag` -/
def Registers.set_flag (r : Registers) (value : Nat) : Registers :=
  { r with v := r.v.set FLAG_REGISTER value }

/-- `Registers::get_i` -/
def Registers.get_i (r : Registers) : Nat := r.i

/-- `Registers::set_i` -/
def Registers.set_i (r : Registers) (value : Nat) : Registers :=
  { r with i := value }

/-- `Registers::get_pc` -/
def Registers.get_pc (r : Registers) : Nat := r.pc

/-- `Registers::set_pc` -/
def Registers.set_pc (r : Registers) (value : Nat) : Registers :=
  { r with pc := value }

/-- `Registers::increment_pc` (`pc.wrapping_add(2)`) -/
def Registers.increment_pc (r : Registers) : Registers :=
  { r with pc := (r.pc + 2) % 65536 }

/-- `Registers::skip_instruction` (`pc.wrapping_add(2)`) -/
def Registers.skip_instruction (r : Registers) : Registers :=
  { r with pc := (r.pc + 2) % 65536 }

/-- `Registers::get_sp` -/
def Registers.get_sp (r : Registers) : Nat := r.sp

/-- `Registers::add_with_carry`: `overflowing_add` on bytes gives the sum
modulo 256 together with a carry flag that is set exactly when the true sum
reached 256. -/
def Registers.add_with_carry (r : Registers) (vx vy : Nat) :
    Except EmulatorError Registers :=
  match r.get_v vx with
  | .error e => .error e
  | .ok valX =>
    match r.get_v vy with
    | .error e => .error e
    | .ok valY =>
      let result := (valX + valY) % 256
      let carry := valX + valY ≥ 256
      match r.set_v vx result with
      | .error e => .error e
      | .ok r => .ok (r.set_flag (if carry then 1 else 0))

/-- `Registers::sub_with_borrow`: `overflowing_sub` on bytes gives
`(x + 256 - y) % 256` together with a borrow flag set exactly when `x < y`;
the CHIP-8 flag convention is inverted. -/
def Registers.sub_with_borrow (r : Registers) (vx vy : Nat) :
    Except EmulatorError Registers :=
  match r.get_v vx with
  | .error e => .error e
  | .ok valX =>
    match r.get_v vy with
    | .error e => .error e
    | .ok valY =>
      let result := (valX + 256 - valY) % 256
      let borrow := valX < valY
      match r.set_v vx result with
      | .error e => .error e
      | .ok r => .ok (r.set_flag (if borrow then 0 else 1))

/-- `Registers::sub_reverse_with_borrow` (`VY - VX`, inverted borrow flag). -/
def Registers.sub_reverse_with_borrow (r : Registers) (vx vy : Nat) :
    Except EmulatorError Registers :=
  match r.get_v vx with
  | .error e => .error e
  | .ok valX =>
    match r.get_v vy with
    | .error e => .error e
    | .ok valY =>
      let result := (valY + 256 - valX) % 256
      let borrow := valY < valX
      match r.set_v vx result with
      | .error e => .error e
      | .ok r => .ok (r.set_flag (if borrow then 0 else 1))

/-- `Registers::shift_right`: `val & 0x1` is `val % 2`, `val >> 1` is
`val / 2`. -/
def Registers.shift_right (r : Registers) (vx : Nat) :
    Except EmulatorError Registers :=
  match r.get_v vx with
  | .error e => .error e
  | .ok val =>
    let lsb := val % 2
    match r.set_v vx (val / 2) with
    | .error e => .error e
    | .ok r => .ok (r.set_flag lsb)

/-- `Registers::shift_left`: `(val & 0x80) >> 7` is `val / 128 % 2`, and
`val << 1` on a byte is `val * 2 % 256`. -/
def Registers.shift_left (r : Registers) (vx : Nat) :
    Except EmulatorError Registers :=
  match r.get_v vx with
  | .error e => .error e
  | .ok val =>
    let msb := val / 128 % 2
    match r.set_v vx (val * 2 % 256) with
    | .error e => .error e
    | .ok r => .ok (r.set_flag msb)

/-- `Registers::get_all_v` -/
def Registers.get_all_v (r : Registers) : List Nat := r.v

/-! ## Call stack (`src/emulator/stack.rs`) -/

/-- `STACK_SIZE` -/
def STACK_SIZE : Nat := 16

/-- The call stack: a 16-slot array and the next-free index `sp`. -/
structure Stack where
  data : List Nat
  sp : Nat
  deriving Repr, DecidableEq

/-- `Stack::new` -/
def Stack.new : Stack :=
  { data := List.replicate STACK_SIZE 0, sp := 0 }

/-- `Stack::push` -/
def Stack.push (s : Stack) (value : Nat) : Except EmulatorError Stack :=
  if s.sp ≥ STACK_SIZE then .error .stackOverflow
  else .ok { data := s.data.set s.sp value, sp := s.sp + 1 }

/-- `Stack::pop` (the vacated slot is cleared to 0, as in the source). -/
def Stack.pop (s : Stack) : Except EmulatorError (Nat × Stack) :=
  if s.sp = 0 then .error .stackUnderflow
  else
    let value := s.data.getD (s.sp - 1) 0
    .ok (value, { data := s.data.set (s.sp - 1) 0, sp := s.sp - 1 })

/-- `Stack::peek` -/
def Stack.peek (s : Stack) : Except EmulatorError Nat :=
  if s.sp = 0 then .error .stackUnderflow
  else .ok (s.data.getD (s.sp - 1) 0)

/-- `Stack::depth` -/
def Stack.depth (s : Stack) : Nat := s.sp

/-- `Stack::get_contents` (bottom-to-top snapshot). -/
def Stack.get_contents (s : Stack) : List Nat := s.data.take s.sp

/-! ## Timers (`src/emulator/timers.rs`)

`Timers::update` accumulates wall-clock time and decrements once per elapsed
60 Hz period; the embedding takes the number of whole elapsed periods as an
explicit argument and performs the per-period decrement loop, exactly the
body of `Timers::update_by_ticks`. -/

/-- The two 8-bit timers. -/
structure Timers where
  delay_timer : Nat
  sound_timer : Nat
  deriving Repr, DecidableEq

/-- `Timers::new` -/
def Timers.new : Timers := { delay_timer := 0, sound_timer := 0 }

/-- `Timers::get_delay_timer` -/
def Timers.get_delay_timer (t : Timers) : Nat := t.delay_timer

/-- `Timers::set_delay_timer` -/
def Timers.set_delay_timer (t : Timers) (value : Nat) : Timers :=
  { t with delay_timer := value }

/-- `Timers::get_sound_timer` -/
def Timers.get_sound_timer (t : Timers) : Nat := t.sound_timer

/-- `Timers::set_sound_timer` -/
def Timers.set_sound_timer (t : Timers) (value : Nat) : Timers :=
  { t with sound_timer := value }

/-- `Timers::update_by_ticks`: each tick decrements each nonzero timer by 1. -/
def Timers.update_by_ticks (t : Timers) : Nat → Timers
  | 0 => t
  | ticks + 1 =>
    let t : Timers :=
      { delay_timer := if t.delay_timer > 0 then t.delay_timer - 1 else t.delay_timer,
        sound_timer := if t.sound_timer > 0 then t.sound_timer - 1 else t.sound_timer }
    t.update_by_ticks ticks

/-! ## Memory (`src/emulator/memory.rs`) -/

/-- `MEMORY_SIZE` -/
def MEMORY_SIZE : Nat := 4096

/-- `PROGRAM_START` -/
def PROGRAM_START : Nat := 0x200

/-- `FONT_START` -/
def FONT_START : Nat := 0x50

/-- `FONT_SIZE` -/
def FONT_SIZE : Nat := 80

/-- `FONT_SET` -/
def FONT_SET : List Nat :=
  [0xF0, 0x90, 0x90, 0x90, 0xF0,
   0x20, 0x60, 0x20, 0x20, 0x70,
   0xF0, 0x10, 0xF0, 0x80, 0xF0,
   0xF0, 0x10, 0xF0, 0x10, 0xF0,
   0x90, 0x90, 0xF0, 0x10, 0x10,
   0xF0, 0x80, 0xF0, 0x10, 0xF0,
   0xF0, 0x80, 0xF0, 0x90, 0xF0,
   0xF0, 0x10, 0x20, 0x40, 0x40,
   0xF0, 0x90, 0xF0, 0x90, 0xF0,
   0xF0, 0x90, 0xF0, 0x10, 0xF0,
   0xF0, 0x90, 0xF0, 0x90, 0x90,
   0xE0, 0x90, 0xE0, 0x90, 0xE0,
   0xF0, 0x80, 0x80, 0x80, 0xF0,
   0xE0, 0x90, 0x90, 0x90, 0xE0,
   0xF0, 0x80, 0xF0, 0x80, 0xF0,
   0xF0, 0x80, 0xF0, 0x80, 0x80]

/-- The 4 KiB memory: the byte array is modelled as a total function from
addresses to bytes, together with the wraparound behaviour flag. -/
structure Memory where
  data : Nat → Nat
  wraparound_enabled : Bool

/-- Pointwise update of the backing array: `data[addr] = value`. -/
def storeByte (data : Nat → Nat) (addr value : Nat) : Nat → Nat :=
  fun a => if a = addr then value else data a

/-- Copy a byte slice into the backing array starting at `start`
(`copy_from_slice`), one element at a time. -/
def storeSlice (data : Nat → Nat) (start : Nat) : List Nat → (Nat → Nat)
  | [] => data
  | b :: rest => storeSlice (storeByte data start b) (start + 1) rest

/-- Zero the backing array on `[start, start + len)`
(the `for addr in start..MEMORY_SIZE` clearing loop). -/
def zeroRange (data : Nat → Nat) (start : Nat) : Nat → (Nat → Nat)
  | 0 => data
  | len + 1 => zeroRange (storeByte data start 0) (start + 1) len

/-- `Memory::load_font_data` -/
def Memory.load_font_data (m : Memory) : Memory :=
  { m with data := storeSlice m.data FONT_START FONT_SET }

/-- `Memory::new` -/
def Memory.new : Memory :=
  (Memory.load_font_data { data := fun _ => 0, wraparound_enabled := false })

/-- `Memory::new_with_wraparound` -/
def Memory.new_with_wraparound (wraparound : Bool) : Memory :=
  (Memory.load_font_data { data := fun _ => 0, wraparound_enabled := wraparound })

/-- `Memory::read_byte` -/
def Memory.read_byte (m : Memory) (address : Nat) : Except EmulatorError Nat :=
  if m.wraparound_enabled then .ok (m.data (address % MEMORY_SIZE))
  else if address ≥ MEMORY_SIZE then .error (.invalidMemoryAccess address)
  else .ok (m.data address)

/-- `Memory::write_byte` -/
def Memory.write_byte (m : Memory) (address value : Nat) :
    Except EmulatorError Memory :=
  if m.wraparound_enabled then
    .ok { m with data := storeByte m.data (address % MEMORY_SIZE) value }
  else if address ≥ MEMORY_SIZE then .error (.invalidMemoryAccess address)
  else .ok { m with data := storeByte m.data address value }

/-- `Memory::read_word` (big-endian; the second byte sits at `address + 1`,
a `u16` addition, hence the modulus). -/
def Memory.read_word (m : Memory) (address : Nat) : Except EmulatorError Nat :=
  match m.read_byte address with
  | .error e => .error e
  | .ok high_byte =>
    match m.read_byte ((address + 1) % 65536) with
    | .error e => .error e
    | .ok low_byte => .ok (high_byte * 256 + low_byte)

/-- `Memory::write_word` (big-endian). -/
def Memory.write_word (m : Memory) (address value : Nat) :
    Except EmulatorError Memory :=
  match m.write_byte address (value / 256) with
  | .error e => .error e
  | .ok m => m.write_byte ((address + 1) % 65536) (value % 256)

/-- `Memory::load_rom_at`: reject empty input, reject input larger than the
space from `start_address` to the end of memory, otherwise zero the whole
region from `start_address` up and copy the ROM in. -/
def Memory.load_rom_at (m : Memory) (rom_data : List Nat) (start_address : Nat) :
    Except EmulatorError Memory :=
  if rom_data = [] then .error .romEmpty
  else
    let start := start_address
    let available_space := MEMORY_SIZE - start
    if rom_data.length > available_space then
      .error (.romTooLarge rom_data.length available_space)
    else
      let data := zeroRange m.data start (MEMORY_SIZE - start)
      .ok { m with data := storeSlice data start rom_data }

/-- `Memory::load_rom` -/
def Memory.load_rom (m : Memory) (rom_data : List Nat) :
    Except EmulatorError Memory :=
  m.load_rom_at rom_data PROGRAM_START

/-- `Memory::get_font_address` -/
def Memory.get_font_address (_ : Memory) (character : Nat) :
    Except EmulatorError Nat :=
  if character > 0xF then .error (.invalidMemoryAccess character)
  else .ok (FONT_START + character * 5)

/-! ## Display (`src/hardware/display.rs`) -/

/-- `DISPLAY_WIDTH` -/
def DISPLAY_WIDTH : Nat := 64

/-- `DISPLAY_HEIGHT` -/
def DISPLAY_HEIGHT : Nat := 32

/-- `DISPLAY_PIXELS` -/
def DISPLAY_PIXELS : Nat := DISPLAY_WIDTH * DISPLAY_HEIGHT

/-- `SoftwareDisplay`: a flat row-major pixel buffer plus the dirty flag. -/
structure SoftwareDisplay where
  pixels : List Bool
  dirty : Bool
  deriving Repr, DecidableEq

/-- `SoftwareDisplay::new` -/
def SoftwareDisplay.new : SoftwareDisplay :=
  { pixels := List.replicate DISPLAY_PIXELS false, dirty := false }

/-- `SoftwareDisplay::coord_to_index` -/
def coord_to_index (x y : Nat) : Except DisplayError Nat :=
  if x ≥ DISPLAY_WIDTH ∨ y ≥ DISPLAY_HEIGHT then
    .error (.invalidCoordinates x y)
  else .ok (y * DISPLAY_WIDTH + x)

/-- The inner `for col in 0..8` loop of `SoftwareDisplay::draw_sprite`,
recursing over the remaining column indices. `x + col` is a `u8` addition
(hence `% 256`); the sprite bit is `(sprite_byte >> (7 - col)) & 1`, written
as `/ 2 ^ (7 - col) % 2`. -/
def drawSpriteCols (pixels : List Bool) (collision : Bool)
    (x pixel_y sprite_byte : Nat) :
    List Nat → Except DisplayError (List Bool × Bool)
  | [] => .ok (pixels, collision)
  | col :: rest =>
    let pixel_x := (x + col) % 256 % DISPLAY_WIDTH
    let sprite_pixel := sprite_byte / 2 ^ (7 - col) % 2
    if sprite_pixel = 1 then
      match coord_to_index pixel_x pixel_y with
      | .error e => .error e
      | .ok index =>
        let old_pixel := pixels.getD index false
        let pixels := pixels.set index (xor old_pixel true)
        let collision :=
          if old_pixel && !(pixels.getD index false) then true else collision
        drawSpriteCols pixels collision x pixel_y sprite_byte rest
    else drawSpriteCols pixels collision x pixel_y sprite_byte rest

/-- The outer row loop of `SoftwareDisplay::draw_sprite` (`row` is the
enumeration index; `y + row as u8` is a `u8` cast plus `u8` addition). -/
def drawSpriteRows (pixels : List Bool) (collision : Bool) (x y row : Nat) :
    List Nat → Except DisplayError (List Bool × Bool)
  | [] => .ok (pixels, collision)
  | sprite_byte :: rest =>
    let pixel_y := (y + row % 256) % 256 % DISPLAY_HEIGHT
    match drawSpriteCols pixels collision x pixel_y sprite_byte
        (List.range 8) with
    | .error e => .error e
    | .ok (pixels, collision) => drawSpriteRows pixels collision x y (row + 1) rest

/-- `SoftwareDisplay::draw_sprite` -/
def SoftwareDisplay.draw_sprite (d : SoftwareDisplay) (x y : Nat)
    (sprite : List Nat) : Except DisplayError (SoftwareDisplay × Bool) :=
  match drawSpriteRows d.pixels false x y 0 sprite with
  | .error e => .error e
  | .ok (pixels, collision) =>
    .ok ({ pixels := pixels, dirty := if sprite ≠ [] then true else d.dirty },
         collision)

/-- `SoftwareDisplay::get_pixel` -/
def SoftwareDisplay.get_pixel (d : SoftwareDisplay) (x y : Nat) :
    Except DisplayError Bool :=
  match coord_to_index x y with
  | .error e => .error e
  | .ok index => .ok (d.pixels.getD index false)

/-- `SoftwareDisplay::clear` -/
def SoftwareDisplay.clear (_ : SoftwareDisplay) : SoftwareDisplay :=
  { pixels := List.replicate DISPLAY_PIXELS false, dirty := true }

/-! ## Input (`src/hardware/input.rs`)

`ChipKey` is a 16-value enum; it is modelled by its `u8` discriminant
(`0x0`–`0xF`). A `HashSet<ChipKey>` becomes a list of key values tested with
`contains`. -/

/-- `ChipKey::from_u8` -/
def ChipKey.from_u8 (value : Nat) : Option Nat :=
  if value ≤ 0xF then some value else none

/-- `SoftwareInput`: the set of currently pressed keys (the two
frame-tracking sets play no role in the engine and are omitted). -/
structure SoftwareInput where
  pressed_keys : List Nat
  deriving Repr, DecidableEq

/-- `SoftwareInput::new` -/
def SoftwareInput.new : SoftwareInput := { pressed_keys := [] }

/-- `SoftwareInput::is_key_pressed` -/
def SoftwareInput.is_key_pressed (inp : SoftwareInput) (key : Nat) : Bool :=
  inp.pressed_keys.contains key

/-- `SoftwareInput::press_key` -/
def SoftwareInput.press_key (inp : SoftwareInput) (key : Nat) : SoftwareInput :=
  { pressed_keys := key :: inp.pressed_keys }

/-- `SoftwareInput::release_key` -/
def SoftwareInput.release_key (inp : SoftwareInput) (key : Nat) : SoftwareInput :=
  { pressed_keys := inp.pressed_keys.filter (fun k => k ≠ key) }

/-- `Input::get_first_pressed_key`: scan `ChipKey::all_keys()` (the keys in
increasing order) for the first pressed one. -/
def SoftwareInput.get_first_pressed_key (inp : SoftwareInput) : Option Nat :=
  (List.range 16).find? (fun key => inp.is_key_pressed key)

/-! ## CPU (`src/emulator/cpu.rs`) -/

/-- The CPU state. The display and input collaborators are optional, as in
the source (`Option<Box<dyn Display>>`, `Option<Rc<RefCell<dyn Input>>>`);
the concrete software implementations stand in for the trait objects.
`rng` models the thread-local random generator as a pre-drawn byte stream. -/
structure Cpu where
  registers : Registers
  memory : Memory
  stack : Stack
  timers : Timers
  rng : List Nat
  instruction_count : Nat
  waiting_for_key : Bool
  key_wait_register : Nat
  waiting_for_key_release : Option Nat
  display : Option SoftwareDisplay
  input : Option SoftwareInput

/-- `Cpu::new` -/
def Cpu.new : Cpu :=
  { registers := Registers.new, memory := Memory.new, stack := Stack.new,
    timers := Timers.new, rng := [], instruction_count := 0,
    waiting_for_key := false, key_wait_register := 0,
    waiting_for_key_release := none, display := none, input := none }

/-- `CpuState`, the public debugging snapshot. -/
structure CpuState where
  pc : Nat
  sp : Nat
  i : Nat
  v : List Nat
  delay_timer : Nat
  sound_timer : Nat
  stack_contents : List Nat
  instruction_count : Nat
  deriving Repr, DecidableEq

/-- `Cpu::get_state` -/
def Cpu.get_state (cpu : Cpu) : CpuState :=
  { pc := cpu.registers.get_pc, sp := cpu.registers.get_sp,
    i := cpu.registers.get_i, v := cpu.registers.get_all_v,
    delay_timer := cpu.timers.get_delay_timer,
    sound_timer := cpu.timers.get_sound_timer,
    stack_contents := cpu.stack.get_contents,
    instruction_count := cpu.instruction_count }

/-- `Cpu::cls` -/
def Cpu.cls (cpu : Cpu) : Except EmulatorError Cpu :=
  match cpu.display with
  | some display => .ok { cpu with display := some display.clear }
  | none => .ok cpu

/-- `Cpu::ret` -/
def Cpu.ret (cpu : Cpu) : Except EmulatorError Cpu :=
  match cpu.stack.pop with
  | .error e => .error e
  | .ok (addr, stack) =>
    .ok { cpu with stack := stack, registers := cpu.registers.set_pc addr }

/-- `Cpu::jp` -/
def Cpu.jp (cpu : Cpu) (addr : Nat) : Except EmulatorError Cpu :=
  .ok { cpu with registers := cpu.registers.set_pc addr }

/-- `Cpu::call` -/
def Cpu.call (cpu : Cpu) (addr : Nat) : Except EmulatorError Cpu :=
  match cpu.stack.push cpu.registers.get_pc with
  | .error e => .error e
  | .ok stack =>
    .ok { cpu with stack := stack, registers := cpu.registers.set_pc addr }

/-- `Cpu::se_vx_nn` -/
def Cpu.se_vx_nn (cpu : Cpu) (x nn : Nat) : Except EmulatorError Cpu :=
  match cpu.registers.get_v x with
  | .error e => .error e
  | .ok vx =>
    if vx = nn then .ok { cpu with registers := cpu.registers.skip_instruction }
    else .ok cpu

/-- `Cpu::sne_vx_nn` -/
def Cpu.sne_vx_nn (cpu : Cpu) (x nn : Nat) : Except EmulatorError Cpu :=
  match cpu.registers.get_v x with
  | .error e => .error e
  | .ok vx =>
    if vx ≠ nn then .ok { cpu with registers := cpu.registers.skip_instruction }
    else .ok cpu

/-- `Cpu::se_vx_vy` -/
def Cpu.se_vx_vy (cpu : Cpu) (x y : Nat) : Except EmulatorError Cpu :=
  match cpu.registers.get_v x with
  | .error e => .error e
  | .ok vx =>
    match cpu.registers.get_v y with
    | .error e => .error e
    | .ok vy =>
      if vx = vy then
        .ok { cpu with registers := cpu.registers.skip_instruction }
      else .ok cpu

/-- `Cpu::sne_vx_vy` -/
def Cpu.sne_vx_vy (cpu : Cpu) (x y : Nat) : Except EmulatorError Cpu :=
  match cpu.registers.get_v x with
  | .error e => .error e
  | .ok vx =>
    match cpu.registers.get_v y with
    | .error e => .error e
    | .ok vy =>
      if vx ≠ vy then
        .ok { cpu with registers := cpu.registers.skip_instruction }
      else .ok cpu

/-- `Cpu::ld_vx_nn` -/
def Cpu.ld_vx_nn (cpu : Cpu) (x nn : Nat) : Except EmulatorError Cpu :=
  match cpu.registers.set_v x nn with
  | .error e => .error e
  | .ok registers => .ok { cpu with registers := registers }

/-- `Cpu::add_vx_nn` (`wrapping_add` on bytes). -/
def Cpu.add_vx_nn (cpu : Cpu) (x nn : Nat) : Except EmulatorError Cpu :=
  match cpu.registers.get_v x with
  | .error e => .error e
  | .ok vx =>
    match cpu.registers.set_v x ((vx + nn) % 256) with
    | .error e => .error e
    | .ok registers => .ok { cpu with registers := registers }

/-- `Cpu::ld_vx_vy` -/
def Cpu.ld_vx_vy (cpu : Cpu) (x y : Nat) : Except EmulatorError Cpu :=
  match cpu.registers.get_v y with
  | .error e => .error e
  | .ok vy =>
    match cpu.registers.set_v x vy with
    | .error e => .error e
    | .ok registers => .ok { cpu with registers := registers }

/-- `Cpu::or_vx_vy` -/
def Cpu.or_vx_vy (cpu : Cpu) (x y : Nat) : Except EmulatorError Cpu :=
  match cpu.registers.get_v x with
  | .error e => .error e
  | .ok vx =>
    match cpu.registers.get_v y with
    | .error e => .error e
    | .ok vy =>
      match cpu.registers.set_v x (vx ||| vy) with
      | .error e => .error e
      | .ok registers => .ok { cpu with registers := registers }

/-- `Cpu::and_vx_vy` -/
def Cpu.and_vx_vy (cpu : Cpu) (x y : Nat) : Except EmulatorError Cpu :=
  match cpu.registers.get_v x with
  | .error e => .error e
  | .ok vx =>
    match cpu.registers.get_v y with
    | .error e => .error e
    | .ok vy =>
      match cpu.registers.set_v x (vx &&& vy) with
      | .error e => .error e
      | .ok registers => .ok { cpu with registers := registers }

/-- `Cpu::xor_vx_vy` -/
def Cpu.xor_vx_vy (cpu : Cpu) (x y : Nat) : Except EmulatorError Cpu :=
  match cpu.registers.get_v x with
  | .error e => .error e
  | .ok vx =>
    match cpu.registers.get_v y with
    | .error e => .error e
    | .ok vy =>
      match cpu.registers.set_v x (vx ^^^ vy) with
      | .error e => .error e
      | .ok registers => .ok { cpu with registers := registers }

/-- `Cpu::add_vx_vy` -/
def Cpu.add_vx_vy (cpu : Cpu) (x y : Nat) : Except EmulatorError Cpu :=
  match cpu.registers.add_with_carry x y with
  | .error e => .error e
  | .ok registers => .ok { cpu with registers := registers }

/-- `Cpu::sub_vx_vy` -/
def Cpu.sub_vx_vy (cpu : Cpu) (x y : Nat) : Except EmulatorError Cpu :=
  match cpu.registers.sub_with_borrow x y with
  | .error e => .error e
  | .ok registers => .ok { cpu with registers := registers }

/-- `Cpu::shr_vx` -/
def Cpu.shr_vx (cpu : Cpu) (x : Nat) : Except EmulatorError Cpu :=
  match cpu.registers.shift_right x with
  | .error e => .error e
  | .ok registers => .ok { cpu with registers := registers }

/-- `Cpu::subn_vx_vy` -/
def Cpu.subn_vx_vy (cpu : Cpu) (x y : Nat) : Except EmulatorError Cpu :=
  match cpu.registers.sub_reverse_with_borrow x y with
  | .error e => .error e
  | .ok registers => .ok { cpu with registers := registers }

/-- `Cpu::shl_vx` -/
def Cpu.shl_vx (cpu : Cpu) (x : Nat) : Except EmulatorError Cpu :=
  match cpu.registers.shift_left x with
  | .error e => .error e
  | .ok registers => .ok { cpu with registers := registers }

/-- `Cpu::ld_i_nnn` -/
def Cpu.ld_i_nnn (cpu : Cpu) (nnn : Nat) : Except EmulatorError Cpu :=
  .ok { cpu with registers := cpu.registers.set_i nnn }

/-- `Cpu::jp_v0_nnn` (`nnn + v0`, a `u16` addition). -/
def Cpu.jp_v0_nnn (cpu : Cpu) (nnn : Nat) : Except EmulatorError Cpu :=
  match cpu.registers.get_v 0 with
  | .error e => .error e
  | .ok v0 =>
    .ok { cpu with registers := cpu.registers.set_pc ((nnn + v0) % 65536) }

/-- `Cpu::rnd_vx_nn` (`rng.gen()` modelled by taking the head of the
pre-drawn byte stream). -/
def Cpu.rnd_vx_nn (cpu : Cpu) (x nn : Nat) : Except EmulatorError Cpu :=
  let random_byte := cpu.rng.headD 0
  match cpu.registers.set_v x (random_byte &&& nn) with
  | .error e => .error e
  | .ok registers =>
    .ok { cpu with registers := registers, rng := cpu.rng.tail }

/-- The sprite-collection loop of `Cpu::drw`
(`for i in 0..n { if addr < 4096 { push(read_byte(addr)?) } }`). -/
def collectSprite (m : Memory) (sprite_addr : Nat) :
    Nat → Nat → Except EmulatorError (List Nat)
  | _, 0 => .ok []
  | i, count + 1 =>
    let addr := sprite_addr + i
    if addr < 4096 then
      match m.read_byte addr with
      | .error e => .error e
      | .ok b =>
        match collectSprite m sprite_addr (i + 1) count with
        | .error e => .error e
        | .ok rest => .ok (b :: rest)
    else
      collectSprite m sprite_addr (i + 1) count

/-- `Cpu::drw` (a failing `draw_sprite` is swallowed by `unwrap_or(false)`). -/
def Cpu.drw (cpu : Cpu) (x y n : Nat) : Except EmulatorError Cpu :=
  match cpu.registers.get_v x with
  | .error e => .error e
  | .ok x_pos =>
    match cpu.registers.get_v y with
    | .error e => .error e
    | .ok y_pos =>
      let sprite_addr := cpu.registers.get_i
      match cpu.display with
      | none =>
        .ok { cpu with registers := cpu.registers.set_flag 0 }
      | some display =>
        match collectSprite cpu.memory sprite_addr 0 n with
        | .error e => .error e
        | .ok sprite_data =>
          let (display, collision) :=
            match display.draw_sprite x_pos y_pos sprite_data with
            | .error _ => (display, false)
            | .ok (d, c) => (d, c)
          .ok { cpu with
                display := some display,
                registers := cpu.registers.set_flag (if collision then 1 else 0) }

/-- `Cpu::skp_vx` -/
def Cpu.skp_vx (cpu : Cpu) (x : Nat) : Except EmulatorError Cpu :=
  match cpu.registers.get_v x with
  | .error e => .error e
  | .ok key_value =>
    match cpu.input with
    | some inp =>
      match ChipKey.from_u8 key_value with
      | some chip_key =>
        if inp.is_key_pressed chip_key then
          .ok { cpu with registers :=
                  cpu.registers.set_pc ((cpu.registers.get_pc + 2) % 65536) }
        else .ok cpu
      | none => .ok cpu
    | none => .ok cpu

/-- `Cpu::sknp_vx` -/
def Cpu.sknp_vx (cpu : Cpu) (x : Nat) : Except EmulatorError Cpu :=
  match cpu.registers.get_v x with
  | .error e => .error e
  | .ok key_value =>
    match cpu.input with
    | some inp =>
      match ChipKey.from_u8 key_value with
      | some chip_key =>
        if ¬ inp.is_key_pressed chip_key then
          .ok { cpu with registers :=
                  cpu.registers.set_pc ((cpu.registers.get_pc + 2) % 65536) }
        else .ok cpu
      | none => .ok cpu
    | none =>
      .ok { cpu with registers :=
              cpu.registers.set_pc ((cpu.registers.get_pc + 2) % 65536) }

/-- `Cpu::ld_vx_dt` -/
def Cpu.ld_vx_dt (cpu : Cpu) (x : Nat) : Except EmulatorError Cpu :=
  match cpu.registers.set_v x cpu.timers.get_delay_timer with
  | .error e => .error e
  | .ok registers => .ok { cpu with registers := registers }

/-- `Cpu::ld_vx_k` (opcode `Fx0A`: request a key wait). -/
def Cpu.ld_vx_k (cpu : Cpu) (x : Nat) : Except EmulatorError Cpu :=
  .ok { cpu with waiting_for_key := true, key_wait_register := x }

/-- `Cpu::ld_dt_vx` -/
def Cpu.ld_dt_vx (cpu : Cpu) (x : Nat) : Except EmulatorError Cpu :=
  match cpu.registers.get_v x with
  | .error e => .error e
  | .ok vx => .ok { cpu with timers := cpu.timers.set_delay_timer vx }

/-- `Cpu::ld_st_vx` -/
def Cpu.ld_st_vx (cpu : Cpu) (x : Nat) : Except EmulatorError Cpu :=
  match cpu.registers.get_v x with
  | .error e => .error e
  | .ok vx => .ok { cpu with timers := cpu.timers.set_sound_timer vx }

/-- `Cpu::add_i_vx` (opcode `Fx1E`: `I = I.wrapping_add(Vx)`, flag set when
the new `I` exceeds `0x0FFF`). -/
def Cpu.add_i_vx (cpu : Cpu) (x : Nat) : Except EmulatorError Cpu :=
  match cpu.registers.get_v x with
  | .error e => .error e
  | .ok vx =>
    let i := cpu.registers.get_i
    let result := (i + vx) % 65536
    let registers := cpu.registers.set_flag (if result > 0x0FFF then 1 else 0)
    .ok { cpu with registers := registers.set_i result }

/-- `Cpu::ld_f_vx` (`vx & 0xF` is `vx % 16`). -/
def Cpu.ld_f_vx (cpu : Cpu) (x : Nat) : Except EmulatorError Cpu :=
  match cpu.registers.get_v x with
  | .error e => .error e
  | .ok vx =>
    match cpu.memory.get_font_address (vx % 16) with
    | .error e => .error e
    | .ok font_addr => .ok { cpu with registers := cpu.registers.set_i font_addr }

/-- `Cpu::ld_b_vx` (BCD store; `i + 1` and `i + 2` are `u16` additions). -/
def Cpu.ld_b_vx (cpu : Cpu) (x : Nat) : Except EmulatorError Cpu :=
  match cpu.registers.get_v x with
  | .error e => .error e
  | .ok vx =>
    let i := cpu.registers.get_i
    match cpu.memory.write_byte i (vx / 100) with
    | .error e => .error e
    | .ok memory =>
      match memory.write_byte ((i + 1) % 65536) (vx / 10 % 10) with
      | .error e => .error e
      | .ok memory =>
        match memory.write_byte ((i + 2) % 65536) (vx % 10) with
        | .error e => .error e
        | .ok memory => .ok { cpu with memory := memory }

/-- The `for reg in 0..=x` loop of `Cpu::ld_i_vx`, iterating `reg` upward
with `count` registers still to store (`i + reg` is a `u16` addition). -/
def storeRegsLoop (memory : Memory) (registers : Registers) (i : Nat) :
    Nat → Nat → Except EmulatorError Memory
  | _, 0 => .ok memory
  | reg, count + 1 =>
    match registers.get_v reg with
    | .error e => .error e
    | .ok value =>
      match memory.write_byte ((i + reg) % 65536) value with
      | .error e => .error e
      | .ok memory => storeRegsLoop memory registers i (reg + 1) count

/-- `Cpu::ld_i_vx` (opcode `Fx55`; `I` itself is not modified). -/
def Cpu.ld_i_vx (cpu : Cpu) (x : Nat) : Except EmulatorError Cpu :=
  let i := cpu.registers.get_i
  match storeRegsLoop cpu.memory cpu.registers i 0 (x + 1) with
  | .error e => .error e
  | .ok memory => .ok { cpu with memory := memory }

/-- The `for reg in 0..=x` loop of `Cpu::ld_vx_i`. -/
def loadRegsLoop (memory : Memory) (registers : Registers) (i : Nat) :
    Nat → Nat → Except EmulatorError Registers
  | _, 0 => .ok registers
  | reg, count + 1 =>
    match memory.read_byte ((i + reg) % 65536) with
    | .error e => .error e
    | .ok value =>
      match registers.set_v reg value with
      | .error e => .error e
      | .ok registers => loadRegsLoop memory registers i (reg + 1) count

/-- `Cpu::ld_vx_i` (opcode `Fx65`; `I` itself is not modified — original
CHIP-8 behaviour). -/
def Cpu.ld_vx_i (cpu : Cpu) (x : Nat) : Except EmulatorError Cpu :=
  let i := cpu.registers.get_i
  match loadRegsLoop cpu.memory cpu.registers i 0 (x + 1) with
  | .error e => .error e
  | .ok registers => .ok { cpu with registers := registers }

/-- `Cpu::execute_instruction`: the nibble decode and dispatch table. The
Rust tuple `match` over literal nibble patterns is translated into the same
sequence of guarded tests, in source order. -/
def Cpu.execute_instruction (cpu : Cpu) (instruction : Nat) :
    Except EmulatorError Cpu :=
  let nib1 := instruction / 4096 % 16
  let nib2 := instruction / 256 % 16
  let nib3 := instruction / 16 % 16
  let nib4 := instruction % 16
  let nnn := instruction % 4096
  let nn := instruction % 256
  let x := nib2
  let y := nib3
  let n := nib4
  if nib1 = 0x0 ∧ nib2 = 0x0 ∧ nib3 = 0xE ∧ nib4 = 0x0 then cpu.cls
  else if nib1 = 0x0 ∧ nib2 = 0x0 ∧ nib3 = 0xE ∧ nib4 = 0xE then cpu.ret
  else if nib1 = 0x0 then .ok cpu
  else if nib1 = 0x1 then cpu.jp nnn
  else if nib1 = 0x2 then cpu.call nnn
  else if nib1 = 0x3 then cpu.se_vx_nn x nn
  else if nib1 = 0x4 then cpu.sne_vx_nn x nn
  else if nib1 = 0x5 ∧ nib4 = 0x0 then cpu.se_vx_vy x y
  else if nib1 = 0x6 then cpu.ld_vx_nn x nn
  else if nib1 = 0x7 then cpu.add_vx_nn x nn
  else if nib1 = 0x8 ∧ nib4 = 0x0 then cpu.ld_vx_vy x y
  else if nib1 = 0x8 ∧ nib4 = 0x1 then cpu.or_vx_vy x y
  else if nib1 = 0x8 ∧ nib4 = 0x2 then cpu.and_vx_vy x y
  else if nib1 = 0x8 ∧ nib4 = 0x3 then cpu.xor_vx_vy x y
  else if nib1 = 0x8 ∧ nib4 = 0x4 then cpu.add_vx_vy x y
  else if nib1 = 0x8 ∧ nib4 = 0x5 then cpu.sub_vx_vy x y
  else if nib1 = 0x8 ∧ nib4 = 0x6 then cpu.shr_vx x
  else if nib1 = 0x8 ∧ nib4 = 0x7 then cpu.subn_vx_vy x y
  else if nib1 = 0x8 ∧ nib4 = 0xE then cpu.shl_vx x
  else if nib1 = 0x9 ∧ nib4 = 0x0 then cpu.sne_vx_vy x y
  else if nib1 = 0xA then cpu.ld_i_nnn nnn
  else if nib1 = 0xB then cpu.jp_v0_nnn nnn
  else if nib1 = 0xC then cpu.rnd_vx_nn x nn
  else if nib1 = 0xD then cpu.drw x y n
  else if nib1 = 0xE ∧ nib3 = 0x9 ∧ nib4 = 0xE then cpu.skp_vx x
  else if nib1 = 0xE ∧ nib3 = 0xA ∧ nib4 = 0x1 then cpu.sknp_vx x
  else if nib1 = 0xF ∧ nib3 = 0x0 ∧ nib4 = 0x7 then cpu.ld_vx_dt x
  else if nib1 = 0xF ∧ nib3 = 0x0 ∧ nib4 = 0xA then cpu.ld_vx_k x
  else if nib1 = 0xF ∧ nib3 = 0x1 ∧ nib4 = 0x5 then cpu.ld_dt_vx x
  else if nib1 = 0xF ∧ nib3 = 0x1 ∧ nib4 = 0x8 then cpu.ld_st_vx x
  else if nib1 = 0xF ∧ nib3 = 0x1 ∧ nib4 = 0xE then cpu.add_i_vx x
  else if nib1 = 0xF ∧ nib3 = 0x2 ∧ nib4 = 0x9 then cpu.ld_f_vx x
  else if nib1 = 0xF ∧ nib3 = 0x3 ∧ nib4 = 0x3 then cpu.ld_b_vx x
  else if nib1 = 0xF ∧ nib3 = 0x5 ∧ nib4 = 0x5 then cpu.ld_i_vx x
  else if nib1 = 0xF ∧ nib3 = 0x6 ∧ nib4 = 0x5 then cpu.ld_vx_i x
  else .error (.unknownInstruction instruction)

/-- `Cpu::cycle`. `ticks` is the number of whole 60 Hz periods the wall
clock accumulated since the previous cycle (see `Timers.update_by_ticks`).
The audio block only starts or stops the external beep and changes no
engine state. -/
def Cpu.cycle (cpu : Cpu) (ticks : Nat) : Except EmulatorError Cpu :=
  let cpu := { cpu with timers := cpu.timers.update_by_ticks ticks }
  if cpu.waiting_for_key then
    match cpu.input with
    | some inp =>
      match cpu.waiting_for_key_release with
      | some waiting_key =>
        match ChipKey.from_u8 waiting_key with
        | some key =>
          if ¬ inp.is_key_pressed key then
            match cpu.registers.set_v cpu.key_wait_register waiting_key with
            | .error e => .error e
            | .ok registers =>
              .ok { cpu with
                    registers := registers,
                    waiting_for_key := false,
                    waiting_for_key_release := none }
          else .ok cpu
        | none => .ok cpu
      | none =>
        match inp.get_first_pressed_key with
        | some pressed_key =>
          .ok { cpu with waiting_for_key_release := some pressed_key }
        | none => .ok cpu
    | none => .ok cpu
  else
    let pc := cpu.registers.get_pc
    match cpu.memory.read_word pc with
    | .error e => .error e
    | .ok instruction =>
      let cpu := { cpu with registers := cpu.registers.increment_pc }
      match cpu.execute_instruction instruction with
      | .error e => .error e
      | .ok cpu =>
        .ok { cpu with instruction_count := cpu.instruction_count + 1 }

/-- Run `execute_instruction` over a list of instruction words in order
(stopping at the first failure). -/
def Cpu.execute_seq (cpu : Cpu) : List Nat → Except EmulatorError Cpu
  | [] => .ok cpu
  | w :: ws =>
    match cpu.execute_instruction w with
    | .error e => .error e
    | .ok cpu => cpu.execute_seq ws

/-! ## Concrete test fixtures (used by witnesses) -/

/-- A memory image holding `CALL 0x300` (`0x2300`) at `0x200` and `RET`
(`0x00EE`) at `0x300`. -/
def callRetTestMemory : Memory :=
  { Memory.new with
    data := storeByte (storeByte (storeByte
        (storeByte Memory.new.data 0x200 0x23) 0x201 0x00) 0x300 0x00)
        0x301 0xEE }

/-- A fresh CPU running the call/return image. -/
def callRetTestCpu : Cpu := { Cpu.new with memory := callRetTestMemory }

/-- A fresh CPU with an input system attached, already waiting for a key
into `V1` (the state right after executing `F10A`). -/
def keyWaitTestCpu : Cpu :=
  { Cpu.new with
    waiting_for_key := true,
    key_wait_register := 1,
    input := some SoftwareInput.new }

/-! ## Test drivers: repeated stack operations -/

/-- Push a list of values in order (the driver used to state the LIFO
property). -/
def Stack.push_list (s : Stack) : List Nat → Except EmulatorError Stack
  | [] => .ok s
  | v :: vs =>
    match s.push v with
    | .error e => .error e
    | .ok s => s.push_list vs

/-- Pop `n` values, returning them top-first. -/
def Stack.pop_list (s : Stack) : Nat → Except EmulatorError (List Nat × Stack)
  | 0 => .ok ([], s)
  | n + 1 =>
    match s.pop with
    | .error e => .error e
    | .ok (v, s) =>
      match s.pop_list n with
      | .error e => .error e
      | .ok (vals, s) => .ok (v :: vals, s)

/-! ## Specification model of sprite drawing

Modelled from the spec sentence for `draw_sprite(x,y,bytes)`: for each byte
(row index `r`) and each of its 8 bits (column `c`, MSB first), if the bit
is 1, XOR the cell at `((x+c) mod width, (y+r) mod height)`; collision is
true if any such XOR turned a cell from true to false. The grid is a
coordinate function so that the claimed cell addresses appear literally. -/

/-- One row of the specification drawing: XOR the set bits of `byte` into
the grid at `((x+c) mod 64, (y+r) mod 32)`, accumulating the collision
flag. -/
def specDrawBits (g : Nat → Nat → Bool) (collision : Bool) (x y r byte : Nat) :
    List Nat → (Nat → Nat → Bool) × Bool
  | [] => (g, collision)
  | c :: rest =>
    if byte / 2 ^ (7 - c) % 2 = 1 then
      let px := (x + c) % DISPLAY_WIDTH
      let py := (y + r) % DISPLAY_HEIGHT
      let turned_off := g px py
      let g2 : Nat → Nat → Bool :=
        fun a b => if a = px ∧ b = py then xor (g px py) true else g a b
      specDrawBits g2 (collision || turned_off) x y r byte rest
    else specDrawBits g collision x y r byte rest

/-- All rows of the specification drawing. -/
def specDrawRows (g : Nat → Nat → Bool) (collision : Bool) (x y r : Nat) :
    List Nat → (Nat → Nat → Bool) × Bool
  | [] => (g, collision)
  | byte :: rest =>
    let p := specDrawBits g collision x y r byte (List.range 8)
    specDrawRows p.1 p.2 x y (r + 1) rest

/-- The specification-model sprite draw on a coordinate-indexed grid. -/
def specDrawSprite (g : Nat → Nat → Bool) (x y : Nat) (sprite : List Nat) :
    (Nat → Nat → Bool) × Bool :=
  specDrawRows g false x y 0 sprite

/-- The grid view of a display's flat row-major pixel buffer. -/
def SoftwareDisplay.grid (d : SoftwareDisplay) (a b : Nat) : Bool :=
  d.pixels.getD (b * DISPLAY_WIDTH + a) false

/-! ## Shared helper lemmas -/

theorem getD_set_self {α : Type} (l : List α) (i : Nat) (v d : α)
    (h : i < l.length) : (l.set i v).getD i d = v := by
  simp [List.getD_eq_getElem?_getD, List.getElem?_set_self, h]

theorem getD_set_ne {α : Type} (l : List α) {i j : Nat} (v d : α)
    (h : i ≠ j) : (l.set i v).getD j d = l.getD j d := by
  simp [List.getD_eq_getElem?_getD, List.getElem?_set_ne h]

theorem get_v_of_lt (r : Registers) {index : Nat} (h : index < 16) :
    r.get_v index = .ok (r.v.getD index 0) := by
  simp only [Registers.get_v, NUM_REGISTERS]
  rw [if_neg (by omega)]

theorem set_v_of_lt (r : Registers) {index : Nat} (value : Nat)
    (h : index < 16) :
    r.set_v index value = .ok { r with v := r.v.set index value } := by
  simp only [Registers.set_v, NUM_REGISTERS]
  rw [if_neg (by omega)]

theorem add_with_carry_eq (r : Registers) {x y : Nat} (hx : x < 16)
    (hy : y < 16) :
    r.add_with_carry x y =
      .ok { r with
            v := (r.v.set x ((r.v.getD x 0 + r.v.getD y 0) % 256)).set
                FLAG_REGISTER
                (if 256 ≤ r.v.getD x 0 + r.v.getD y 0 then 1 else 0) } := by
  simp only [Registers.add_with_carry, get_v_of_lt r hx, get_v_of_lt r hy,
    set_v_of_lt _ _ hx, Registers.set_flag, ge_iff_le]

theorem sub_with_borrow_eq (r : Registers) {x y : Nat} (hx : x < 16)
    (hy : y < 16) :
    r.sub_with_borrow x y =
      .ok { r with
            v := (r.v.set x ((r.v.getD x 0 + 256 - r.v.getD y 0) % 256)).set
                FLAG_REGISTER
                (if r.v.getD x 0 < r.v.getD y 0 then 0 else 1) } := by
  simp only [Registers.sub_with_borrow, get_v_of_lt r hx, get_v_of_lt r hy,
    set_v_of_lt _ _ hx, Registers.set_flag]

theorem sub_reverse_with_borrow_eq (r : Registers) {x y : Nat} (hx : x < 16)
    (hy : y < 16) :
    r.sub_reverse_with_borrow x y =
      .ok { r with
            v := (r.v.set x ((r.v.getD y 0 + 256 - r.v.getD x 0) % 256)).set
                FLAG_REGISTER
                (if r.v.getD y 0 < r.v.getD x 0 then 0 else 1) } := by
  simp only [Registers.sub_reverse_with_borrow, get_v_of_lt r hx,
    get_v_of_lt r hy, set_v_of_lt _ _ hx, Registers.set_flag]

theorem shift_right_eq (r : Registers) {x : Nat} (hx : x < 16) :
    r.shift_right x =
      .ok { r with
            v := (r.v.set x (r.v.getD x 0 / 2)).set
                FLAG_REGISTER (r.v.getD x 0 % 2) } := by
  simp only [Registers.shift_right, get_v_of_lt r hx, set_v_of_lt _ _ hx,
    Registers.set_flag]

theorem shift_left_eq (r : Registers) {x : Nat} (hx : x < 16) :
    r.shift_left x =
      .ok { r with
            v := (r.v.set x (r.v.getD x 0 * 2 % 256)).set
                FLAG_REGISTER (r.v.getD x 0 / 128 % 2) } := by
  simp only [Registers.shift_left, get_v_of_lt r hx, set_v_of_lt _ _ hx,
    Registers.set_flag]

/-! ## Claim theorems -/

/-- C2: for all register indices `x, y` and a well-formed register file, the
fused arithmetic operations succeed (no panic), set the flag register
exactly as specified — carry 1 on 8-bit overflow else 0; inverted borrow
(1 when no borrow occurred); pre-shift LSB for `shift_right`; pre-shift MSB
for `shift_left` — and the stored results are reduced modulo 256. -/
theorem fused_arithmetic_flag_semantics (r : Registers) (x y : Nat)
    (hlen : r.v.length = 16) (hx : x < 16) (hy : y < 16) :
    (∃ r1, r.add_with_carry x y = .ok r1 ∧
      r1.get_flag = (if 256 ≤ r.v.getD x 0 + r.v.getD y 0 then 1 else 0) ∧
      (x ≠ FLAG_REGISTER →
        r1.get_v x = .ok ((r.v.getD x 0 + r.v.getD y 0) % 256))) ∧
    (∃ r2, r.sub_with_borrow x y = .ok r2 ∧
      r2.get_flag = (if r.v.getD x 0 < r.v.getD y 0 then 0 else 1) ∧
      (x ≠ FLAG_REGISTER →
        r2.get_v x = .ok ((r.v.getD x 0 + 256 - r.v.getD y 0) % 256))) ∧
    (∃ r3, r.sub_reverse_with_borrow x y = .ok r3 ∧
      r3.get_flag = (if r.v.getD y 0 < r.v.getD x 0 then 0 else 1) ∧
      (x ≠ FLAG_REGISTER →
        r3.get_v x = .ok ((r.v.getD y 0 + 256 - r.v.getD x 0) % 256))) ∧
    (∃ r4, r.shift_right x = .ok r4 ∧
      r4.get_flag = r.v.getD x 0 % 2 ∧
      (x ≠ FLAG_REGISTER → r4.get_v x = .ok (r.v.getD x 0 / 2))) ∧
    (∃ r5, r.shift_left x = .ok r5 ∧
      r5.get_flag = r.v.getD x 0 / 128 % 2 ∧
      (x ≠ FLAG_REGISTER → r5.get_v x = .ok (r.v.getD x 0 * 2 % 256))) := by
  have key : ∀ res flag : Nat,
      (((r.v.set x res).set FLAG_REGISTER flag).getD FLAG_REGISTER 0 = flag) ∧
      (x ≠ FLAG_REGISTER →
        ((r.v.set x res).set FLAG_REGISTER flag).getD x 0 = res) := by
    intro res flag
    constructor
    · exact getD_set_self _ _ _ _ (by simp [hlen, FLAG_REGISTER])
    · intro hne
      rw [getD_set_ne _ _ _ (fun h => hne h.symm),
        getD_set_self _ _ _ _ (by simp [hlen]; omega)]
  refine ⟨⟨_, add_with_carry_eq r hx hy, (key _ _).1, fun hne => ?_⟩,
    ⟨_, sub_with_borrow_eq r hx hy, (key _ _).1, fun hne => ?_⟩,
    ⟨_, sub_reverse_with_borrow_eq r hx hy, (key _ _).1, fun hne => ?_⟩,
    ⟨_, shift_right_eq r hx, (key _ _).1, fun hne => ?_⟩,
    ⟨_, shift_left_eq r hx, (key _ _).1, fun hne => ?_⟩⟩ <;>
  · rw [get_v_of_lt _ hx]
    exact congrArg Except.ok ((key _ _).2 hne)

/-- Witness for C2 at the freshly created register file and indices 1, 2. -/
theorem fused_arithmetic_flag_semantics_witness :
    ∃ r1, Registers.new.add_with_carry 1 2 = .ok r1 ∧
      r1.get_flag =
        (if 256 ≤ Registers.new.v.getD 1 0 + Registers.new.v.getD 2 0 then 1
         else 0) ∧
      (1 ≠ FLAG_REGISTER →
        r1.get_v 1 =
          .ok ((Registers.new.v.getD 1 0 + Registers.new.v.getD 2 0) % 256)) :=
  (fused_arithmetic_flag_semantics Registers.new 1 2 (by decide) (by decide)
    (by decide)).1

/-! ## Stack lemmas (towards C7) -/

theorem pop_list_zero (s : Stack) : s.pop_list 0 = .ok ([], s) := rfl

theorem pop_list_succ (s : Stack) (n : Nat) :
    s.pop_list (n + 1) =
      match s.pop with
      | .error e => .error e
      | .ok (v, s2) =>
        match s2.pop_list n with
        | .error e => .error e
        | .ok (vals, t) => .ok (v :: vals, t) := by
  rw [Stack.pop_list]

theorem pop_list_append (m : Nat) : ∀ (s : Stack) (n : Nat) vals1 s1,
    s.pop_list m = .ok (vals1, s1) →
    s.pop_list (m + n) =
      (match s1.pop_list n with
       | .error e => .error e
       | .ok (vals2, t) => .ok (vals1 ++ vals2, t)) := by
  induction m with
  | zero =>
    intro s n vals1 s1 h
    simp only [pop_list_zero, Except.ok.injEq, Prod.mk.injEq] at h
    obtain ⟨rfl, rfl⟩ := h
    rw [Nat.zero_add]
    cases hpn : s.pop_list n with
    | error e => simp
    | ok p => cases p with | mk vals2 t => simp
  | succ m ih =>
    intro s n vals1 s1 h
    rw [pop_list_succ] at h
    cases hp : s.pop with
    | error e => simp [hp] at h
    | ok p =>
      obtain ⟨v, s2⟩ := p
      simp only [hp] at h
      cases hq : s2.pop_list m with
      | error e => simp [hq] at h
      | ok q =>
        obtain ⟨vals, t⟩ := q
        simp only [hq, Except.ok.injEq, Prod.mk.injEq] at h
        obtain ⟨rfl, rfl⟩ := h
        have hsum : m + 1 + n = (m + n) + 1 := by omega
        rw [hsum, pop_list_succ]
        simp only [hp, ih s2 n vals t hq]
        cases hr : t.pop_list n with
        | error e => simp
        | ok r => cases r with | mk vals2 u => simp

theorem push_list_pop_list (vs : List Nat) : ∀ s : Stack,
    s.data.length = 16 → s.sp + vs.length ≤ 16 →
    ∃ s', s.push_list vs = .ok s' ∧ s'.data.length = 16 ∧
      s'.sp = s.sp + vs.length ∧
      (∀ j, j < s.sp → s'.data.getD j 0 = s.data.getD j 0) ∧
      ∃ t, s'.pop_list vs.length = .ok (vs.reverse, t) ∧ t.sp = s.sp ∧
        t.data.length = 16 ∧
        (∀ j, j < s.sp → t.data.getD j 0 = s.data.getD j 0) := by
  induction vs with
  | nil =>
    intro s hlen hcap
    exact ⟨s, rfl, hlen, by simp, fun j _ => rfl, s, rfl, rfl, hlen,
      fun j _ => rfl⟩
  | cons v vs ih =>
    intro s hlen hcap
    have hsp : s.sp < 16 := by simp only [List.length_cons] at hcap; omega
    have hpush : s.push v =
        .ok { data := s.data.set s.sp v, sp := s.sp + 1 } := by
      rw [Stack.push, if_neg (by rw [STACK_SIZE]; omega)]
    set s1 : Stack := { data := s.data.set s.sp v, sp := s.sp + 1 } with hs1
    have hlen1 : s1.data.length = 16 := by
      simp [hs1, List.length_set, hlen]
    have hcap1 : s1.sp + vs.length ≤ 16 := by
      simp only [List.length_cons] at hcap; simp only [hs1]; omega
    obtain ⟨s', hps, hlen', hsp', hsbelow, t, hpop, htsp, htlen, htbelow⟩ :=
      ih s1 hlen1 hcap1
    have hsp1 : s1.sp = s.sp + 1 := rfl
    refine ⟨s', ?_, hlen', ?_, ?_, ?_⟩
    · rw [Stack.push_list]
      simp only [hpush, hps]
    · rw [hsp', hsp1, List.length_cons]; omega
    · intro j hj
      rw [hsbelow j (by omega)]
      exact getD_set_ne _ _ _ (by omega)
    · have htop : t.data.getD s.sp 0 = v := by
        rw [htbelow s.sp (by omega)]
        exact getD_set_self _ _ _ _ (by rw [hlen]; omega)
      have hpop1 : t.pop =
          .ok (v, { data := t.data.set s.sp 0, sp := s.sp }) := by
        rw [Stack.pop, if_neg (by omega), htsp, hsp1, Nat.add_sub_cancel, htop]
      set t' : Stack := { data := t.data.set s.sp 0, sp := s.sp } with ht'
      refine ⟨t', ?_, rfl, ?_, ?_⟩
      · have hlen_cons : (v :: vs).length = vs.length + 1 := by simp
        rw [hlen_cons, pop_list_append vs.length s' 1 vs.reverse t hpop]
        rw [pop_list_succ]
        simp only [hpop1, pop_list_zero]
        simp
      · simp [ht', List.length_set, htlen]
      · intro j hj
        have h1 : t'.data.getD j 0 = t.data.getD j 0 :=
          getD_set_ne _ _ _ (by omega)
        rw [h1, htbelow j (by omega)]
        exact getD_set_ne _ _ _ (by omega)

/-- C7: the call stack is LIFO with depth always in `[0, 16]`: pushing a
list of values and then popping returns them in reverse order and restores
the depth; a push at depth 16 fails with `stackOverflow` (returning no new
stack, so the stack is unchanged); pop and peek at depth 0 fail with
`stackUnderflow`; peek agrees with pop's value while producing no new stack;
and push/pop keep the depth within bounds. -/
theorem stack_lifo_bounded (s : Stack) (v : Nat) (vs : List Nat)
    (hlen : s.data.length = 16) :
    (s.sp + vs.length ≤ 16 →
      ∃ s', s.push_list vs = .ok s' ∧
        ∃ t, s'.pop_list vs.length = .ok (vs.reverse, t) ∧
          t.depth = s.depth) ∧
    (s.sp ≥ 16 → s.push v = .error .stackOverflow) ∧
    (s.sp = 0 →
      s.pop = .error .stackUnderflow ∧ s.peek = .error .stackUnderflow) ∧
    (∀ w t, s.pop = .ok (w, t) →
      s.peek = .ok w ∧ t.depth + 1 = s.depth) ∧
    (∀ t, s.push v = .ok t → t.depth = s.depth + 1 ∧ t.depth ≤ 16) := by
  refine ⟨?_, ?_, ?_, ?_, ?_⟩
  · intro hcap
    obtain ⟨s', hps, _, _, _, t, hpop, htsp, _, _⟩ :=
      push_list_pop_list vs s hlen hcap
    exact ⟨s', hps, t, hpop, htsp⟩
  · intro h
    rw [Stack.push, if_pos (by rw [STACK_SIZE]; omega)]
  · intro h
    constructor
    · rw [Stack.pop, if_pos h]
    · rw [Stack.peek, if_pos h]
  · intro w t h
    rw [Stack.pop] at h
    by_cases hsp : s.sp = 0
    · rw [if_pos hsp] at h; exact absurd h (by simp)
    · rw [if_neg hsp] at h
      simp only [Except.ok.injEq, Prod.mk.injEq] at h
      obtain ⟨rfl, rfl⟩ := h
      refine ⟨?_, ?_⟩
      · rw [Stack.peek, if_neg hsp]
      · simp only [Stack.depth]; omega
  · intro t h
    rw [Stack.push] at h
    by_cases hsp : s.sp ≥ STACK_SIZE
    · rw [if_pos hsp] at h; exact absurd h (by simp)
    · rw [if_neg hsp] at h
      simp only [Except.ok.injEq] at h
      subst h
      rw [STACK_SIZE] at hsp
      exact ⟨rfl, by simp only [Stack.depth]; omega⟩

/-- Witness for C7 on the fresh stack with values 100, 200, 300. -/
theorem stack_lifo_bounded_witness :
    (Stack.new.sp + [100, 200, 300].length ≤ 16 →
      ∃ s', Stack.new.push_list [100, 200, 300] = .ok s' ∧
        ∃ t, s'.pop_list [100, 200, 300].length =
            .ok ([100, 200, 300].reverse, t) ∧
          t.depth = Stack.new.depth) ∧
    (Stack.new.sp ≥ 16 → Stack.new.push 0xFFF = .error .stackOverflow) ∧
    (Stack.new.sp = 0 →
      Stack.new.pop = .error .stackUnderflow ∧
      Stack.new.peek = .error .stackUnderflow) ∧
    (∀ w t, Stack.new.pop = .ok (w, t) →
      Stack.new.peek = .ok w ∧ t.depth + 1 = Stack.new.depth) ∧
    (∀ t, Stack.new.push 0xFFF = .ok t →
      t.depth = Stack.new.depth + 1 ∧ t.depth ≤ 16) :=
  stack_lifo_bounded Stack.new 0xFFF [100, 200, 300] (by decide)

/-- C8: for every CPU state with a well-formed register file, executing
`Fx1E` succeeds and sets `I` to `I + Vx` reduced modulo 65536, with the flag
register set to 1 exactly when the new `I` exceeds `0x0FFF` and 0
otherwise. -/
theorem add_i_vx_eq (cpu : Cpu) {x : Nat} (hx : x < 16) :
    cpu.add_i_vx x =
      .ok { cpu with
            registers := (cpu.registers.set_flag
                (if 0x0FFF <
                    (cpu.registers.get_i + cpu.registers.v.getD x 0) % 65536
                 then 1 else 0)).set_i
                ((cpu.registers.get_i + cpu.registers.v.getD x 0) % 65536) } := by
  simp only [Cpu.add_i_vx, get_v_of_lt _ hx, gt_iff_lt]

theorem add_i_vx_semantics (cpu : Cpu) (x : Nat) (hx : x < 16)
    (hlen : cpu.registers.v.length = 16) :
    ∃ cpu', cpu.execute_instruction (0xF000 + 256 * x + 0x1E) = .ok cpu' ∧
      cpu'.registers.get_i =
        (cpu.registers.get_i + cpu.registers.v.getD x 0) % 65536 ∧
      cpu'.registers.get_flag =
        (if 0x0FFF < (cpu.registers.get_i + cpu.registers.v.getD x 0) % 65536
         then 1 else 0) ∧
      cpu'.registers.get_pc = cpu.registers.get_pc := by
  have h1 : (0xF000 + 256 * x + 0x1E) / 4096 % 16 = 15 := by omega
  have h2 : (0xF000 + 256 * x + 0x1E) / 256 % 16 = x := by omega
  have h3 : (0xF000 + 256 * x + 0x1E) / 16 % 16 = 1 := by omega
  have h4 : (0xF000 + 256 * x + 0x1E) % 16 = 14 := by omega
  have hexec : cpu.execute_instruction (0xF000 + 256 * x + 0x1E) =
      cpu.add_i_vx x := by
    rw [Cpu.execute_instruction]
    simp only [h1, h2, h3, h4]
    norm_num
  exact ⟨_, hexec.trans (add_i_vx_eq cpu hx), rfl,
    getD_set_self _ _ _ _ (by rw [hlen]; norm_num [FLAG_REGISTER]), rfl⟩

/-! ## Memory access lemmas (towards C5, C6, C9) -/

theorem read_byte_lt (m : Memory) {address : Nat} (h : address < 4096) :
    m.read_byte address = .ok (m.data address) := by
  rw [Memory.read_byte]
  cases hw : m.wraparound_enabled with
  | false => rw [if_neg (by simp), if_neg (by rw [MEMORY_SIZE]; omega)]
  | true => rw [if_pos (by simp), Nat.mod_eq_of_lt (by rw [MEMORY_SIZE]; omega)]

theorem write_byte_lt (m : Memory) {address : Nat} (value : Nat)
    (h : address < 4096) :
    m.write_byte address value =
      .ok { m with data := storeByte m.data address value } := by
  rw [Memory.write_byte]
  cases hw : m.wraparound_enabled with
  | false => rw [if_neg (by simp), if_neg (by rw [MEMORY_SIZE]; omega)]
  | true => rw [if_pos (by simp), Nat.mod_eq_of_lt (by rw [MEMORY_SIZE]; omega)]

theorem read_byte_nowrap_ge (m : Memory) {address : Nat}
    (hw : m.wraparound_enabled = false) (h : 4096 ≤ address) :
    m.read_byte address = .error (.invalidMemoryAccess address) := by
  rw [Memory.read_byte, if_neg (by simp [hw]),
    if_pos (by rw [MEMORY_SIZE]; omega)]

theorem write_byte_nowrap_ge (m : Memory) {address : Nat} (value : Nat)
    (hw : m.wraparound_enabled = false) (h : 4096 ≤ address) :
    m.write_byte address value = .error (.invalidMemoryAccess address) := by
  rw [Memory.write_byte, if_neg (by simp [hw]),
    if_pos (by rw [MEMORY_SIZE]; omega)]

theorem read_byte_wrap (m : Memory) (hw : m.wraparound_enabled = true)
    (a : Nat) : m.read_byte a = .ok (m.data (a % MEMORY_SIZE)) := by
  rw [Memory.read_byte, if_pos (by simp [hw])]

theorem write_byte_wrap (m : Memory) (hw : m.wraparound_enabled = true)
    (a v : Nat) : m.write_byte a v =
      .ok { m with data := storeByte m.data (a % MEMORY_SIZE) v } := by
  rw [Memory.write_byte, if_pos (by simp [hw])]

theorem read_word_lt (m : Memory) {address : Nat} (h : address + 1 < 4096) :
    m.read_word address =
      .ok (m.data address * 256 + m.data (address + 1)) := by
  rw [Memory.read_word]
  simp only [read_byte_lt m (show address < 4096 by omega),
    Nat.mod_eq_of_lt (show address + 1 < 65536 by omega), read_byte_lt m h]

theorem write_word_lt (m : Memory) {address : Nat} (value : Nat)
    (h : address + 1 < 4096) :
    m.write_word address value =
      .ok { m with
            data := storeByte (storeByte m.data address (value / 256))
                (address + 1) (value % 256) } := by
  rw [Memory.write_word]
  simp only [write_byte_lt m (value / 256) (show address < 4096 by omega),
    Nat.mod_eq_of_lt (show address + 1 < 65536 by omega)]
  exact write_byte_lt _ _ h

theorem read_word_wrap (m : Memory) (hw : m.wraparound_enabled = true)
    (address : Nat) :
    m.read_word address =
      .ok (m.data (address % 4096) * 256 + m.data ((address + 1) % 4096)) := by
  have hmod : (address + 1) % 65536 % MEMORY_SIZE = (address + 1) % 4096 := by
    rw [MEMORY_SIZE]; omega
  rw [Memory.read_word]
  simp only [read_byte_wrap m hw, hmod]
  rfl

theorem write_word_wrap (m : Memory) (hw : m.wraparound_enabled = true)
    (address value : Nat) :
    m.write_word address value =
      .ok { m with
            data := storeByte
                (storeByte m.data (address % MEMORY_SIZE) (value / 256))
                ((address + 1) % 65536 % MEMORY_SIZE) (value % 256) } := by
  rw [Memory.write_word]
  simp only [write_byte_wrap m hw (address) (value / 256)]
  exact write_byte_wrap _ (by exact hw) _ _

/-- C5 counterexample: with wraparound disabled, the word access at address
4095 — an address below 4096 — fails, because its second byte lies at 4096;
likewise the word write. So not every access at an address below 4096
succeeds. -/
theorem word_access_below_4096_fails :
    Memory.new.wraparound_enabled = false ∧ 4095 < 4096 ∧
    Memory.new.read_word 4095 = .error (.invalidMemoryAccess 4096) ∧
    Memory.new.write_word 4095 0x1234 = .error (.invalidMemoryAccess 4096) :=
  ⟨rfl, by norm_num, rfl, rfl⟩

/-- C5 (amended): in non-wraparound mode an access whose own address is
at least 4096 fails with `invalidMemoryAccess` (byte or word, read or
write); byte accesses below 4096 succeed; a word access succeeds exactly
when `address + 1 < 4096` and the word access at address 4095 fails. In
wraparound mode every access reduces its address modulo 4096 and succeeds,
the second byte of a word landing at `(address + 1) % 4096`. -/
theorem memory_access_mode_semantics (m : Memory) (address value : Nat) :
    (m.wraparound_enabled = false →
      (4096 ≤ address →
        m.read_byte address = .error (.invalidMemoryAccess address) ∧
        m.write_byte address value = .error (.invalidMemoryAccess address) ∧
        m.read_word address = .error (.invalidMemoryAccess address) ∧
        m.write_word address value = .error (.invalidMemoryAccess address)) ∧
      (address < 4096 →
        m.read_byte address = .ok (m.data address) ∧
        ∃ m', m.write_byte address value = .ok m') ∧
      (address + 1 < 4096 →
        m.read_word address =
          .ok (m.data address * 256 + m.data (address + 1)) ∧
        ∃ m', m.write_word address value = .ok m') ∧
      (address = 4095 →
        m.read_word address = .error (.invalidMemoryAccess 4096) ∧
        m.write_word address value = .error (.invalidMemoryAccess 4096))) ∧
    (m.wraparound_enabled = true →
      m.read_byte address = .ok (m.data (address % 4096)) ∧
      (∃ m', m.write_byte address value = .ok m' ∧
        m'.data (address % 4096) = value) ∧
      m.read_word address =
        .ok (m.data (address % 4096) * 256 +
             m.data ((address + 1) % 4096)) ∧
      (∃ m', m.write_word address value = .ok m')) := by
  constructor
  · intro hw
    refine ⟨?_, ?_, ?_, ?_⟩
    · intro hge
      refine ⟨read_byte_nowrap_ge m hw hge, write_byte_nowrap_ge m _ hw hge,
        ?_, ?_⟩
      · rw [Memory.read_word, read_byte_nowrap_ge m hw hge]
      · rw [Memory.write_word, write_byte_nowrap_ge m _ hw hge]
    · intro hlt
      exact ⟨read_byte_lt m hlt, _, write_byte_lt m value hlt⟩
    · intro hlt
      exact ⟨read_word_lt m hlt, _, write_word_lt m value hlt⟩
    · intro heq
      subst heq
      constructor
      · rw [Memory.read_word,
          read_byte_lt m (show (4095 : Nat) < 4096 by omega)]
        norm_num
        simp only [read_byte_nowrap_ge m hw
          (show (4096 : Nat) ≤ 4096 from le_refl _)]
      · rw [Memory.write_word,
          write_byte_lt m (value / 256) (show (4095 : Nat) < 4096 by omega)]
        norm_num
        exact write_byte_nowrap_ge
          { m with data := storeByte m.data 4095 (value / 256) }
          (value % 256) hw (show (4096 : Nat) ≤ 4096 from le_refl _)
  · intro hw
    refine ⟨?_, ⟨_, write_byte_wrap m hw address value, ?_⟩,
      read_word_wrap m hw address, _, write_word_wrap m hw address value⟩
    · have := read_byte_wrap m hw address
      rw [MEMORY_SIZE] at this
      exact this
    · simp [storeByte, MEMORY_SIZE]

/-- Witness for C5's amended theorem: byte and word accesses on concrete
memories, exercising both modes. -/
theorem memory_access_mode_semantics_witness :
    (4095 < 4096 →
      Memory.new.read_byte 4095 = .ok (Memory.new.data 4095) ∧
      ∃ m', Memory.new.write_byte 4095 7 = .ok m') ∧
    (Memory.new_with_wraparound true).read_byte 5000 =
      .ok ((Memory.new_with_wraparound true).data (5000 % 4096)) :=
  ⟨((memory_access_mode_semantics Memory.new 4095 7).1 rfl).2.1,
   ((memory_access_mode_semantics (Memory.new_with_wraparound true) 5000
      7).2 rfl).1⟩

/-- Witness for C8 on the fresh CPU and `x = 1`. -/
theorem add_i_vx_semantics_witness :
    ∃ cpu', Cpu.new.execute_instruction (0xF000 + 256 * 1 + 0x1E) = .ok cpu' ∧
      cpu'.registers.get_i =
        (Cpu.new.registers.get_i + Cpu.new.registers.v.getD 1 0) % 65536 ∧
      cpu'.registers.get_flag =
        (if 0x0FFF <
            (Cpu.new.registers.get_i + Cpu.new.registers.v.getD 1 0) % 65536
         then 1 else 0) ∧
      cpu'.registers.get_pc = Cpu.new.registers.get_pc :=
  add_i_vx_semantics Cpu.new 1 (by decide) (by decide)

/-! ## ROM loading (towards C6) -/

theorem zeroRange_spec (len : Nat) : ∀ (data : Nat → Nat) (start a : Nat),
    zeroRange data start len a =
      if start ≤ a ∧ a < start + len then 0 else data a := by
  induction len with
  | zero =>
    intro data start a
    rw [zeroRange, if_neg (by omega)]
  | succ len ih =>
    intro data start a
    rw [zeroRange, ih]
    by_cases h1 : start + 1 ≤ a ∧ a < start + 1 + len
    · rw [if_pos h1, if_pos (by omega)]
    · rw [if_neg h1]
      unfold storeByte
      by_cases h2 : a = start
      · rw [if_pos h2, if_pos (by omega)]
      · rw [if_neg h2, if_neg (by omega)]

theorem storeSlice_spec (l : List Nat) : ∀ (data : Nat → Nat) (start a : Nat),
    storeSlice data start l a =
      if start ≤ a ∧ a < start + l.length then l.getD (a - start) 0
      else data a := by
  induction l with
  | nil =>
    intro data start a
    rw [storeSlice, if_neg (by simp)]
  | cons b rest ih =>
    intro data start a
    rw [storeSlice, ih]
    by_cases h1 : start + 1 ≤ a ∧ a < start + 1 + rest.length
    · rw [if_pos h1, if_pos (by simp; omega)]
      have hsub : a - start = (a - (start + 1)) + 1 := by omega
      rw [hsub]
      exact (List.getD_cons_succ).symm
    · rw [if_neg h1]
      unfold storeByte
      by_cases h2 : a = start
      · subst h2
        rw [if_pos rfl, if_pos (by simp)]
        simp
      · rw [if_neg h2, if_neg (by simp; omega)]

/-- C6: for every byte sequence `d` and in-range start address `s`, loading
fails with `romEmpty` when `d` is empty, fails with `romTooLarge` when
`d.length > 4096 - s` (so a load of exactly `4096 - s` bytes is accepted),
and on success the whole region from `s` to the end of memory is zeroed
before `d` is copied in: the final contents hold `d` on
`[s, s + d.length)`, zero on the rest of `[s, 4096)`, and the old bytes
below `s`. -/
theorem load_rom_at_semantics (m : Memory) (d : List Nat) (s : Nat)
    (hs : s ≤ 4096) :
    (d = [] → m.load_rom_at d s = .error .romEmpty) ∧
    (d ≠ [] → 4096 - s < d.length →
      m.load_rom_at d s = .error (.romTooLarge d.length (4096 - s))) ∧
    (d ≠ [] → d.length ≤ 4096 - s →
      ∃ m', m.load_rom_at d s = .ok m' ∧
        m'.wraparound_enabled = m.wraparound_enabled ∧
        ∀ a, m'.data a =
          if s ≤ a ∧ a < s + d.length then d.getD (a - s) 0
          else if s ≤ a ∧ a < 4096 then 0
          else m.data a) := by
  refine ⟨?_, ?_, ?_⟩
  · intro hd
    rw [Memory.load_rom_at, if_pos hd]
  · intro hd hbig
    rw [Memory.load_rom_at, if_neg hd]
    rw [MEMORY_SIZE, if_pos (by omega)]
  · intro hd hfit
    refine ⟨{ m with
              data := storeSlice (zeroRange m.data s (MEMORY_SIZE - s)) s d },
      ?_, rfl, ?_⟩
    · rw [Memory.load_rom_at, if_neg hd, MEMORY_SIZE, if_neg (by omega)]
    · intro a
      show storeSlice (zeroRange m.data s (MEMORY_SIZE - s)) s d a = _
      rw [storeSlice_spec, zeroRange_spec, MEMORY_SIZE]
      rcases Nat.lt_or_ge a 4096 with hlt | hge
      · by_cases h1 : s ≤ a ∧ a < s + d.length
        · rw [if_pos h1, if_pos h1]
        · rw [if_neg h1]
          by_cases h2 : s ≤ a
          · rw [if_pos (by omega), if_neg h1, if_pos (by omega)]
          · rw [if_neg (by omega), if_neg h1, if_neg (by omega)]
      · rw [if_neg (by omega), if_neg (by omega), if_neg (by omega),
          if_neg (by omega)]

/-- Witness for C6: loading two bytes at the standard program start. -/
theorem load_rom_at_semantics_witness :
    ∃ m', Memory.new.load_rom_at [0x12, 0x34] 0x200 = .ok m' ∧
      m'.wraparound_enabled = Memory.new.wraparound_enabled ∧
      ∀ a, m'.data a =
        if 0x200 ≤ a ∧ a < 0x200 + [0x12, 0x34].length then
          [0x12, 0x34].getD (a - 0x200) 0
        else if 0x200 ≤ a ∧ a < 4096 then 0
        else Memory.new.data a :=
  (load_rom_at_semantics Memory.new [0x12, 0x34] 0x200 (by norm_num)).2.2
    (by decide) (by norm_num)

/-! ## Block register store/load (towards C9) -/

theorem storeRegsLoop_spec (registers : Registers) (i : Nat) (count : Nat) :
    ∀ (memory : Memory) (reg : Nat), reg + count ≤ 16 →
    i + reg + count ≤ 4096 →
    ∃ memory', storeRegsLoop memory registers i reg count = .ok memory' ∧
      memory'.wraparound_enabled = memory.wraparound_enabled ∧
      ∀ a, memory'.data a =
        if i + reg ≤ a ∧ a < i + reg + count then registers.v.getD (a - i) 0
        else memory.data a := by
  induction count with
  | zero =>
    intro memory reg _ _
    exact ⟨memory, rfl, rfl, fun a => by rw [if_neg (by omega)]⟩
  | succ count ih =>
    intro memory reg hreg hmem
    have hlt : i + reg < 4096 := by omega
    have hmod : (i + reg) % 65536 = i + reg := Nat.mod_eq_of_lt (by omega)
    obtain ⟨memory', hloop, hwrap, hdata⟩ :=
      ih { memory with
           data := storeByte memory.data (i + reg) (registers.v.getD reg 0) }
        (reg + 1) (by omega) (by omega)
    refine ⟨memory', ?_, hwrap, ?_⟩
    · rw [storeRegsLoop]
      simp only [get_v_of_lt registers (show reg < 16 by omega), hmod,
        write_byte_lt memory (registers.v.getD reg 0) hlt]
      exact hloop
    · intro a
      rw [hdata a]
      by_cases h1 : i + (reg + 1) ≤ a ∧ a < i + (reg + 1) + count
      · rw [if_pos h1, if_pos (by omega)]
      · rw [if_neg h1]
        show storeByte memory.data (i + reg) (registers.v.getD reg 0) a = _
        unfold storeByte
        by_cases h2 : a = i + reg
        · rw [if_pos h2, if_pos (by omega)]
          have hsub : a - i = reg := by omega
          rw [hsub]
        · rw [if_neg h2, if_neg (by omega)]

theorem loadRegsLoop_spec (memory : Memory) (i : Nat) (count : Nat) :
    ∀ (registers : Registers) (reg : Nat), registers.v.length = 16 →
    reg + count ≤ 16 → i + reg + count ≤ 4096 →
    ∃ registers', loadRegsLoop memory registers i reg count = .ok registers' ∧
      registers'.v.length = 16 ∧ registers'.i = registers.i ∧
      registers'.pc = registers.pc ∧ registers'.sp = registers.sp ∧
      ∀ r, registers'.v.getD r 0 =
        if reg ≤ r ∧ r < reg + count then memory.data (i + r)
        else registers.v.getD r 0 := by
  induction count with
  | zero =>
    intro registers reg hlen _ _
    exact ⟨registers, rfl, hlen, rfl, rfl, rfl,
      fun r => by rw [if_neg (by omega)]⟩
  | succ count ih =>
    intro registers reg hlen hreg hmem
    have hlt : i + reg < 4096 := by omega
    have hmod : (i + reg) % 65536 = i + reg := Nat.mod_eq_of_lt (by omega)
    obtain ⟨registers', hloop, hlen', hi', hpc', hsp', hv⟩ :=
      ih { registers with v := registers.v.set reg (memory.data (i + reg)) }
        (reg + 1) (by rw [List.length_set]; exact hlen) (by omega) (by omega)
    refine ⟨registers', ?_, hlen', hi', hpc', hsp', ?_⟩
    · rw [loadRegsLoop]
      simp only [hmod, read_byte_lt memory hlt,
        set_v_of_lt registers (memory.data (i + reg))
          (show reg < 16 by omega)]
      exact hloop
    · intro r
      rw [hv r]
      by_cases h1 : reg + 1 ≤ r ∧ r < reg + 1 + count
      · rw [if_pos h1, if_pos (by omega)]
      · rw [if_neg h1]
        show (registers.v.set reg (memory.data (i + reg))).getD r 0 = _
        by_cases h2 : r = reg
        · subst h2
          rw [getD_set_self _ _ _ _ (by rw [hlen]; omega), if_pos (by omega)]
        · rw [getD_set_ne _ _ _ (fun h => h2 h.symm), if_neg (by omega)]

/-- C9: for every register index `x` and every `I` for which all the touched
addresses are in range, `Fx55` stores `V0..Vx` inclusive to memory at
`I..I+x` leaving the registers (in particular `I`) unchanged and the rest of
memory untouched, and `Fx65` loads `V0..Vx` inclusive from memory at
`I..I+x` leaving memory, `I`, `PC` and the remaining registers unchanged. -/
theorem block_store_load_semantics (cpu : Cpu) (x : Nat) (hx : x < 16)
    (hlen : cpu.registers.v.length = 16)
    (hfit : cpu.registers.get_i + x < 4096) :
    (∃ cpu', cpu.execute_instruction (0xF000 + 256 * x + 0x55) = .ok cpu' ∧
      cpu'.registers = cpu.registers ∧
      (∀ r, r ≤ x →
        cpu'.memory.data (cpu.registers.get_i + r) =
          cpu.registers.v.getD r 0) ∧
      (∀ a, a < cpu.registers.get_i ∨ cpu.registers.get_i + x < a →
        cpu'.memory.data a = cpu.memory.data a)) ∧
    (∃ cpu', cpu.execute_instruction (0xF000 + 256 * x + 0x65) = .ok cpu' ∧
      cpu'.memory = cpu.memory ∧
      cpu'.registers.get_i = cpu.registers.get_i ∧
      cpu'.registers.get_pc = cpu.registers.get_pc ∧
      (∀ r, r ≤ x →
        cpu'.registers.v.getD r 0 =
          cpu.memory.data (cpu.registers.get_i + r)) ∧
      (∀ r, x < r →
        cpu'.registers.v.getD r 0 = cpu.registers.v.getD r 0)) := by
  constructor
  · have h1 : (0xF000 + 256 * x + 0x55) / 4096 % 16 = 15 := by omega
    have h2 : (0xF000 + 256 * x + 0x55) / 256 % 16 = x := by omega
    have h3 : (0xF000 + 256 * x + 0x55) / 16 % 16 = 5 := by omega
    have h4 : (0xF000 + 256 * x + 0x55) % 16 = 5 := by omega
    have hexec : cpu.execute_instruction (0xF000 + 256 * x + 0x55) =
        cpu.ld_i_vx x := by
      rw [Cpu.execute_instruction]
      simp only [h1, h2, h3, h4]
      norm_num
    obtain ⟨memory', hloop, _, hdata⟩ :=
      storeRegsLoop_spec cpu.registers cpu.registers.get_i (x + 1)
        cpu.memory 0 (by omega) (by omega)
    refine ⟨{ cpu with memory := memory' }, ?_, rfl, ?_, ?_⟩
    · rw [hexec, Cpu.ld_i_vx]
      simp only [hloop]
    · intro r hr
      rw [hdata, if_pos (by omega), Nat.add_sub_cancel_left]
    · intro a ha
      rw [hdata, if_neg (by omega)]
  · have h1 : (0xF000 + 256 * x + 0x65) / 4096 % 16 = 15 := by omega
    have h2 : (0xF000 + 256 * x + 0x65) / 256 % 16 = x := by omega
    have h3 : (0xF000 + 256 * x + 0x65) / 16 % 16 = 6 := by omega
    have h4 : (0xF000 + 256 * x + 0x65) % 16 = 5 := by omega
    have hexec : cpu.execute_instruction (0xF000 + 256 * x + 0x65) =
        cpu.ld_vx_i x := by
      rw [Cpu.execute_instruction]
      simp only [h1, h2, h3, h4]
      norm_num
    obtain ⟨registers', hloop, _, hi', hpc', _, hv⟩ :=
      loadRegsLoop_spec cpu.memory cpu.registers.get_i (x + 1)
        cpu.registers 0 hlen (by omega) (by omega)
    refine ⟨{ cpu with registers := registers' }, ?_, rfl, hi', hpc', ?_, ?_⟩
    · rw [hexec, Cpu.ld_vx_i]
      simp only [hloop]
    · intro r hr
      rw [hv, if_pos (by omega)]
    · intro r hr
      rw [hv, if_neg (by omega)]

/-- Witness for C9 at the fresh CPU (where `I = 0`) and `x = 3`. -/
theorem block_store_load_semantics_witness :
    (∃ cpu', Cpu.new.execute_instruction (0xF000 + 256 * 3 + 0x55) =
        .ok cpu' ∧
      cpu'.registers = Cpu.new.registers ∧
      (∀ r, r ≤ 3 →
        cpu'.memory.data (Cpu.new.registers.get_i + r) =
          Cpu.new.registers.v.getD r 0) ∧
      (∀ a, a < Cpu.new.registers.get_i ∨ Cpu.new.registers.get_i + 3 < a →
        cpu'.memory.data a = Cpu.new.memory.data a)) ∧
    (∃ cpu', Cpu.new.execute_instruction (0xF000 + 256 * 3 + 0x65) =
        .ok cpu' ∧
      cpu'.memory = Cpu.new.memory ∧
      cpu'.registers.get_i = Cpu.new.registers.get_i ∧
      cpu'.registers.get_pc = Cpu.new.registers.get_pc ∧
      (∀ r, r ≤ 3 →
        cpu'.registers.v.getD r 0 =
          Cpu.new.memory.data (Cpu.new.registers.get_i + r)) ∧
      (∀ r, 3 < r →
        cpu'.registers.v.getD r 0 = Cpu.new.registers.v.getD r 0)) :=
  block_store_load_semantics Cpu.new 3 (by decide) (by decide) (by decide)

/-! ## Subroutine call and return (towards C10 and C1) -/

theorem call_eq (cpu : Cpu) (addr : Nat) (h : cpu.stack.sp < 16) :
    cpu.call addr =
      .ok { cpu with
            stack := { data := cpu.stack.data.set cpu.stack.sp
                          cpu.registers.get_pc,
                       sp := cpu.stack.sp + 1 },
            registers := cpu.registers.set_pc addr } := by
  rw [Cpu.call, Stack.push, if_neg (by rw [STACK_SIZE]; omega)]

theorem ret_eq (cpu : Cpu) (h : cpu.stack.sp ≠ 0) :
    cpu.ret =
      .ok { cpu with
            stack := { data := cpu.stack.data.set (cpu.stack.sp - 1) 0,
                       sp := cpu.stack.sp - 1 },
            registers := cpu.registers.set_pc
              (cpu.stack.data.getD (cpu.stack.sp - 1) 0) } := by
  rw [Cpu.ret, Stack.pop, if_neg h]

theorem exec_call_eq (cpu : Cpu) (w : Nat) (h : w / 4096 % 16 = 2) :
    cpu.execute_instruction w = cpu.call (w % 4096) := by
  rw [Cpu.execute_instruction]
  simp only [h]
  norm_num

theorem exec_ret_eq (cpu : Cpu) :
    cpu.execute_instruction 0x00EE = cpu.ret := by
  rw [Cpu.execute_instruction]
  norm_num

theorem call_ret_step (cpu : Cpu) (w : Nat)
    (hw : w / 4096 % 16 = 2 ∨ w = 0x00EE)
    (hsp : cpu.registers.sp = 0) (hslen : cpu.stack.data.length = 16)
    (hssp : cpu.stack.sp ≤ 16) :
    ∀ cpu1, cpu.execute_instruction w = .ok cpu1 →
      cpu1.registers.sp = 0 ∧ cpu1.stack.data.length = 16 ∧
      cpu1.stack.sp ≤ 16 := by
  intro cpu1 hstep
  rcases hw with h2 | hee
  · rw [exec_call_eq cpu w h2, Cpu.call] at hstep
    cases hp : cpu.stack.push cpu.registers.get_pc with
    | error e => simp only [hp] at hstep; exact absurd hstep (by simp)
    | ok st =>
      simp only [hp, Except.ok.injEq] at hstep
      subst hstep
      rw [Stack.push] at hp
      by_cases hfull : cpu.stack.sp ≥ STACK_SIZE
      · rw [if_pos hfull] at hp; exact absurd hp (by simp)
      · rw [if_neg hfull] at hp
        simp only [Except.ok.injEq] at hp
        subst hp
        rw [STACK_SIZE] at hfull
        refine ⟨hsp, ?_, ?_⟩
        · show (cpu.stack.data.set cpu.stack.sp cpu.registers.get_pc).length = 16
          rw [List.length_set]; exact hslen
        · show cpu.stack.sp + 1 ≤ 16
          omega
  · subst hee
    rw [exec_ret_eq cpu, Cpu.ret] at hstep
    cases hp : cpu.stack.pop with
    | error e => simp only [hp] at hstep; exact absurd hstep (by simp)
    | ok p =>
      obtain ⟨addr, st⟩ := p
      simp only [hp, Except.ok.injEq] at hstep
      subst hstep
      rw [Stack.pop] at hp
      by_cases hz : cpu.stack.sp = 0
      · rw [if_pos hz] at hp; exact absurd hp (by simp)
      · rw [if_neg hz] at hp
        simp only [Except.ok.injEq, Prod.mk.injEq] at hp
        obtain ⟨-, rfl⟩ := hp
        refine ⟨hsp, ?_, ?_⟩
        · show (cpu.stack.data.set (cpu.stack.sp - 1) 0).length = 16
          rw [List.length_set]; exact hslen
        · show cpu.stack.sp - 1 ≤ 16
          omega

/-- C10: executing any sequence of subroutine-call (`2nnn`) and return
(`00EE`) opcodes never modifies the stack-pointer shadow register: starting
from `sp = 0`, the public snapshot's `sp` field is still 0 afterwards,
while the call depth is reflected only in the snapshot's `stack_contents`
(whose length equals the stack's depth). -/
theorem call_ret_sp_shadow (ws : List Nat) : ∀ cpu : Cpu,
    (∀ w ∈ ws, w / 4096 % 16 = 2 ∨ w = 0x00EE) →
    cpu.registers.sp = 0 → cpu.stack.data.length = 16 →
    cpu.stack.sp ≤ 16 →
    ∀ cpu', cpu.execute_seq ws = .ok cpu' →
      cpu'.get_state.sp = 0 ∧
      cpu'.get_state.stack_contents.length = cpu'.stack.depth := by
  induction ws with
  | nil =>
    intro cpu _ hsp hslen hssp cpu' hrun
    rw [Cpu.execute_seq] at hrun
    simp only [Except.ok.injEq] at hrun
    subst hrun
    refine ⟨hsp, ?_⟩
    show (cpu.stack.data.take cpu.stack.sp).length = cpu.stack.sp
    rw [List.length_take]
    omega
  | cons w ws ih =>
    intro cpu hops hsp hslen hssp cpu' hrun
    rw [Cpu.execute_seq] at hrun
    cases hstep : cpu.execute_instruction w with
    | error e => simp only [hstep] at hrun; exact absurd hrun (by simp)
    | ok cpu1 =>
      simp only [hstep] at hrun
      obtain ⟨hsp1, hslen1, hssp1⟩ :=
        call_ret_step cpu w (hops w (by simp)) hsp hslen hssp cpu1 hstep
      exact ih cpu1 (fun v hv => hops v (by simp [hv])) hsp1 hslen1 hssp1
        cpu' hrun

/-- Witness for C10: a call to 0x300 followed by a return, from the fresh
CPU. -/
theorem call_ret_sp_shadow_witness :
    ∃ cpu', Cpu.new.execute_seq [0x2300, 0x00EE] = .ok cpu' ∧
      cpu'.get_state.sp = 0 ∧
      cpu'.get_state.stack_contents.length = cpu'.stack.depth :=
  ⟨_, rfl,
    call_ret_sp_shadow [0x2300, 0x00EE] Cpu.new (by decide) (by decide)
      (by decide) (by decide) _ rfl⟩

/-! ## The fetch-increment-dispatch cycle (towards C1 and C4) -/

/-- A cycle in the `Running` state: timers advance, the big-endian word at
`PC` is fetched, `PC` is incremented by 2 before dispatch, the instruction
executes, and the instruction counter increments. -/
theorem cycle_fetch_exec (cpu : Cpu) (t w : Nat) (cpu2 : Cpu)
    (h : cpu.waiting_for_key = false)
    (hw : cpu.memory.read_word cpu.registers.get_pc = .ok w)
    (hex : ({ cpu with
              timers := cpu.timers.update_by_ticks t,
              registers := cpu.registers.increment_pc
            } : Cpu).execute_instruction w = .ok cpu2) :
    cpu.cycle t =
      .ok { cpu2 with instruction_count := cpu2.instruction_count + 1 } := by
  rw [Cpu.cycle]
  dsimp only
  rw [if_neg (show ¬(cpu.waiting_for_key = true) by simp [h])]
  simp only [hw, hex]

/-- C1: in the `Running` state, a cycle fetches the instruction word at `PC`
big-endian and increments `PC` by 2 before dispatch, so executing `2nnn`
fetched at address `p` leaves `PC = nnn` with `(p + 2) % 65536` pushed as
the new top of the call stack, and a subsequent cycle executing `00EE` at
`nnn` pops that address back into `PC`, restoring the call depth. -/
theorem call_ret_cycle_semantics (cpu : Cpu) (nnn t1 t2 : Nat)
    (hwait : cpu.waiting_for_key = false)
    (hnnn : nnn < 4096)
    (hsp : cpu.stack.sp < 16)
    (hslen : cpu.stack.data.length = 16)
    (hfetch : cpu.memory.read_word cpu.registers.get_pc = .ok (0x2000 + nnn))
    (hfetch2 : cpu.memory.read_word nnn = .ok 0x00EE) :
    ∃ cpu1, cpu.cycle t1 = .ok cpu1 ∧
      cpu1.registers.get_pc = nnn ∧
      cpu1.stack.peek = .ok ((cpu.registers.get_pc + 2) % 65536) ∧
      cpu1.stack.depth = cpu.stack.depth + 1 ∧
      cpu1.memory = cpu.memory ∧
      cpu1.instruction_count = cpu.instruction_count + 1 ∧
      ∃ cpu2, cpu1.cycle t2 = .ok cpu2 ∧
        cpu2.registers.get_pc = (cpu.registers.get_pc + 2) % 65536 ∧
        cpu2.stack.depth = cpu.stack.depth ∧
        cpu2.instruction_count = cpu.instruction_count + 2 := by
  have hdecode : (0x2000 + nnn) / 4096 % 16 = 2 := by omega
  have hmod : (0x2000 + nnn) % 4096 = nnn := by omega
  have hcall := call_eq
    { cpu with
      timers := cpu.timers.update_by_ticks t1,
      registers := cpu.registers.increment_pc } nnn (by exact hsp)
  have hexec1 : ({ cpu with
      timers := cpu.timers.update_by_ticks t1,
      registers := cpu.registers.increment_pc } : Cpu).execute_instruction
        (0x2000 + nnn) =
      .ok { cpu with
            timers := cpu.timers.update_by_ticks t1,
            registers := cpu.registers.increment_pc.set_pc nnn,
            stack := { data := cpu.stack.data.set cpu.stack.sp
                          ((cpu.registers.pc + 2) % 65536),
                       sp := cpu.stack.sp + 1 } } := by
    rw [exec_call_eq _ _ hdecode, hmod]
    exact hcall
  have hcyc1 := cycle_fetch_exec cpu t1 (0x2000 + nnn) _ hwait hfetch hexec1
  refine ⟨_, hcyc1, rfl, ?_, rfl, rfl, rfl, ?_⟩
  · rw [Stack.peek]
    dsimp only
    rw [if_neg (Nat.succ_ne_zero _), Nat.add_sub_cancel]
    rw [getD_set_self _ _ _ _ (by rw [hslen]; omega)]
    rfl
  · -- second cycle: 00EE at nnn
    have hret := ret_eq
      { cpu with
        timers := (cpu.timers.update_by_ticks t1).update_by_ticks t2,
        registers := (cpu.registers.increment_pc.set_pc nnn).increment_pc,
        stack := { data := cpu.stack.data.set cpu.stack.sp
                      ((cpu.registers.pc + 2) % 65536),
                   sp := cpu.stack.sp + 1 },
        instruction_count := cpu.instruction_count + 1 }
      (Nat.succ_ne_zero _)
    have hexec2 := (exec_ret_eq
      { cpu with
        timers := (cpu.timers.update_by_ticks t1).update_by_ticks t2,
        registers := (cpu.registers.increment_pc.set_pc nnn).increment_pc,
        stack := { data := cpu.stack.data.set cpu.stack.sp
                      ((cpu.registers.pc + 2) % 65536),
                   sp := cpu.stack.sp + 1 },
        instruction_count := cpu.instruction_count + 1 }).trans hret
    have hcyc2 := cycle_fetch_exec
      { cpu with
        timers := cpu.timers.update_by_ticks t1,
        registers := cpu.registers.increment_pc.set_pc nnn,
        stack := { data := cpu.stack.data.set cpu.stack.sp
                      ((cpu.registers.pc + 2) % 65536),
                   sp := cpu.stack.sp + 1 },
        instruction_count := cpu.instruction_count + 1 }
      t2 0x00EE _ hwait hfetch2 hexec2
    refine ⟨_, hcyc2, ?_, rfl, rfl⟩
    show (cpu.stack.data.set cpu.stack.sp
        ((cpu.registers.pc + 2) % 65536)).getD cpu.stack.sp 0 =
      (cpu.registers.get_pc + 2) % 65536
    rw [getD_set_self _ _ _ _ (by rw [hslen]; omega)]
    rfl

/-- Witness for C1: running `CALL 0x300` at `0x200` and then `RET` on the
concrete test image. -/
theorem call_ret_cycle_semantics_witness :
    ∃ cpu1, callRetTestCpu.cycle 0 = .ok cpu1 ∧
      cpu1.registers.get_pc = 0x300 ∧
      cpu1.stack.peek =
        .ok ((callRetTestCpu.registers.get_pc + 2) % 65536) ∧
      cpu1.stack.depth = callRetTestCpu.stack.depth + 1 ∧
      cpu1.memory = callRetTestCpu.memory ∧
      cpu1.instruction_count = callRetTestCpu.instruction_count + 1 ∧
      ∃ cpu2, cpu1.cycle 0 = .ok cpu2 ∧
        cpu2.registers.get_pc =
          (callRetTestCpu.registers.get_pc + 2) % 65536 ∧
        cpu2.stack.depth = callRetTestCpu.stack.depth ∧
        cpu2.instruction_count = callRetTestCpu.instruction_count + 2 :=
  call_ret_cycle_semantics callRetTestCpu 0x300 0 0 rfl (by norm_num)
    (by decide) (by decide) rfl rfl

/-- C4: `Fx0A` puts the engine into the key-wait state targeting register
`x`; a waiting cycle with no key pressed changes nothing but the timers
(in particular neither `PC` nor the instruction counter nor any register);
a waiting cycle with some key `k` down records `k` as release-pending
without writing `Vx`; a waiting cycle while `k` is still down changes
nothing; and once `k` is up, the cycle writes `k` into the target register
and returns to `Running`, still without advancing `PC`. -/
theorem key_wait_semantics (cpu : Cpu) (inp : SoftwareInput) (x k t : Nat) :
    (x < 16 →
      cpu.execute_instruction (0xF000 + 256 * x + 0x0A) =
        .ok { cpu with waiting_for_key := true, key_wait_register := x }) ∧
    (cpu.waiting_for_key = true → cpu.input = some inp →
      cpu.waiting_for_key_release = none →
      inp.get_first_pressed_key = none →
      cpu.cycle t = .ok { cpu with timers := cpu.timers.update_by_ticks t }) ∧
    (cpu.waiting_for_key = true → cpu.input = some inp →
      cpu.waiting_for_key_release = none →
      inp.get_first_pressed_key = some k →
      cpu.cycle t =
        .ok { cpu with
              timers := cpu.timers.update_by_ticks t,
              waiting_for_key_release := some k }) ∧
    (cpu.waiting_for_key = true → cpu.input = some inp →
      cpu.waiting_for_key_release = some k → k ≤ 15 →
      inp.is_key_pressed k = true →
      cpu.cycle t = .ok { cpu with timers := cpu.timers.update_by_ticks t }) ∧
    (cpu.waiting_for_key = true → cpu.input = some inp →
      cpu.waiting_for_key_release = some k → k ≤ 15 →
      inp.is_key_pressed k = false → cpu.key_wait_register < 16 →
      cpu.cycle t =
        .ok { cpu with
              timers := cpu.timers.update_by_ticks t,
              registers := { cpu.registers with
                             v := cpu.registers.v.set cpu.key_wait_register k },
              waiting_for_key := false,
              waiting_for_key_release := none }) := by
  refine ⟨?_, ?_, ?_, ?_, ?_⟩
  · intro hx
    have h1 : (0xF000 + 256 * x + 0x0A) / 4096 % 16 = 15 := by omega
    have h2 : (0xF000 + 256 * x + 0x0A) / 256 % 16 = x := by omega
    have h3 : (0xF000 + 256 * x + 0x0A) / 16 % 16 = 0 := by omega
    have h4 : (0xF000 + 256 * x + 0x0A) % 16 = 10 := by omega
    rw [Cpu.execute_instruction]
    simp only [h1, h2, h3, h4]
    norm_num
    rw [Cpu.ld_vx_k]
  · intro hwait hinp hrel hfirst
    rw [Cpu.cycle]
    dsimp only
    rw [if_pos hwait]
    simp only [hinp, hrel, hfirst]
  · intro hwait hinp hrel hfirst
    rw [Cpu.cycle]
    dsimp only
    rw [if_pos hwait]
    simp only [hinp, hrel, hfirst]
  · intro hwait hinp hrel hk hpress
    rw [Cpu.cycle]
    dsimp only
    rw [if_pos hwait]
    simp only [hinp, hrel, ChipKey.from_u8, if_pos hk, hpress]
    norm_num
  · intro hwait hinp hrel hk hpress hreg
    rw [Cpu.cycle]
    dsimp only
    rw [if_pos hwait]
    simp only [hinp, hrel, ChipKey.from_u8, if_pos hk, hpress]
    norm_num
    rw [set_v_of_lt _ _ hreg]

/-- Witness for C4: the spec's key-wait scenario — `F10A`, a cycle with no
key, a cycle with key 5 down, a cycle after key 5 is released — on concrete
states, with `PC` and the instruction counter bound by the record
equalities. -/
theorem key_wait_semantics_witness :
    ((1 : Nat) < 16 →
      Cpu.execute_instruction
          { Cpu.new with input := some SoftwareInput.new }
          (0xF000 + 256 * 1 + 0x0A) =
        .ok { Cpu.new with
              input := some SoftwareInput.new,
              waiting_for_key := true,
              key_wait_register := 1 }) ∧
    (keyWaitTestCpu.waiting_for_key = true →
      keyWaitTestCpu.input = some SoftwareInput.new →
      keyWaitTestCpu.waiting_for_key_release = none →
      SoftwareInput.new.get_first_pressed_key = none →
      keyWaitTestCpu.cycle 0 =
        .ok { keyWaitTestCpu with
              timers := keyWaitTestCpu.timers.update_by_ticks 0 }) ∧
    (∀ cpu3 : Cpu, cpu3 = { keyWaitTestCpu with
        input := some (SoftwareInput.new.press_key 5) } →
      cpu3.waiting_for_key = true →
      cpu3.input = some (SoftwareInput.new.press_key 5) →
      cpu3.waiting_for_key_release = none →
      (SoftwareInput.new.press_key 5).get_first_pressed_key = some 5 →
      cpu3.cycle 0 =
        .ok { cpu3 with
              timers := cpu3.timers.update_by_ticks 0,
              waiting_for_key_release := some 5 }) ∧
    (∀ cpu4 : Cpu, cpu4 = { keyWaitTestCpu with
        waiting_for_key_release := some 5 } →
      cpu4.waiting_for_key = true →
      cpu4.input = some SoftwareInput.new →
      cpu4.waiting_for_key_release = some 5 → (5 : Nat) ≤ 15 →
      SoftwareInput.new.is_key_pressed 5 = false →
      cpu4.key_wait_register < 16 →
      cpu4.cycle 0 =
        .ok { cpu4 with
              timers := cpu4.timers.update_by_ticks 0,
              registers := { cpu4.registers with
                             v := cpu4.registers.v.set
                               cpu4.key_wait_register 5 },
              waiting_for_key := false,
              waiting_for_key_release := none }) := by
  refine ⟨?_, ?_, ?_, ?_⟩
  · exact (key_wait_semantics
      { Cpu.new with input := some SoftwareInput.new }
      SoftwareInput.new 1 0 0).1
  · exact (key_wait_semantics keyWaitTestCpu SoftwareInput.new 1 0 0).2.1
  · intro cpu3 hdef
    subst hdef
    exact (key_wait_semantics _ (SoftwareInput.new.press_key 5) 1 5 0).2.2.1
  · intro cpu4 hdef
    subst hdef
    exact (key_wait_semantics _ SoftwareInput.new 1 5 0).2.2.2.2

/-! ## Sprite drawing refinement (towards C3) -/

theorem drawSpriteCols_sim (cols : List Nat) :
    ∀ (pixels : List Bool) (g : Nat → Nat → Bool) (coll : Bool)
      (x y r byte : Nat),
      pixels.length = DISPLAY_PIXELS →
      (∀ a b, a < 64 → b < 32 → pixels.getD (b * 64 + a) false = g a b) →
      ∃ out, drawSpriteCols pixels coll x ((y + r) % 32) byte cols =
          .ok out ∧
        out.1.length = DISPLAY_PIXELS ∧
        out.2 = (specDrawBits g coll x y r byte cols).2 ∧
        (∀ a b, a < 64 → b < 32 →
          out.1.getD (b * 64 + a) false =
            (specDrawBits g coll x y r byte cols).1 a b) := by
  induction cols with
  | nil =>
    intro pixels g coll x y r byte hlen hrel
    exact ⟨(pixels, coll), rfl, hlen, rfl, hrel⟩
  | cons c rest ih =>
    intro pixels g coll x y r byte hlen hrel
    have hlen' : pixels.length = 2048 := by
      rw [hlen]; norm_num [DISPLAY_PIXELS, DISPLAY_WIDTH, DISPLAY_HEIGHT]
    rw [drawSpriteCols, specDrawBits]
    by_cases hbit : byte / 2 ^ (7 - c) % 2 = 1
    · rw [if_pos hbit, if_pos hbit]
      have hpx : (x + c) % 256 % DISPLAY_WIDTH = (x + c) % 64 := by
        rw [DISPLAY_WIDTH]; omega
      have hpxlt : (x + c) % 64 < 64 := Nat.mod_lt _ (by norm_num)
      have hpylt : (y + r) % 32 < 32 := Nat.mod_lt _ (by norm_num)
      have hcoord : coord_to_index ((x + c) % 256 % DISPLAY_WIDTH)
          ((y + r) % 32) =
          .ok ((y + r) % 32 * 64 + (x + c) % 64) := by
        rw [coord_to_index, hpx,
          if_neg (by rw [DISPLAY_WIDTH, DISPLAY_HEIGHT]; omega)]
        rw [DISPLAY_WIDTH]
      simp only [hcoord]
      have hidx : (y + r) % 32 * 64 + (x + c) % 64 < pixels.length := by
        rw [hlen']; omega
      have hold : pixels.getD ((y + r) % 32 * 64 + (x + c) % 64) false =
          g ((x + c) % 64) ((y + r) % 32) := hrel _ _ hpxlt hpylt
      have hcoll :
          (if pixels.getD ((y + r) % 32 * 64 + (x + c) % 64) false &&
              !((pixels.set ((y + r) % 32 * 64 + (x + c) % 64)
                  (xor (pixels.getD ((y + r) % 32 * 64 + (x + c) % 64) false)
                    true)).getD ((y + r) % 32 * 64 + (x + c) % 64) false)
            then true else coll) =
          (coll || g ((x + c) % 64) ((y + r) % 32)) := by
        rw [getD_set_self _ _ _ _ hidx, hold]
        cases g ((x + c) % 64) ((y + r) % 32) <;> cases coll <;> rfl
      rw [hcoll]
      have hlen2 : (pixels.set ((y + r) % 32 * 64 + (x + c) % 64)
          (xor (pixels.getD ((y + r) % 32 * 64 + (x + c) % 64) false)
            true)).length = DISPLAY_PIXELS := by
        rw [List.length_set, hlen]
      have hrel2 : ∀ a b, a < 64 → b < 32 →
          (pixels.set ((y + r) % 32 * 64 + (x + c) % 64)
            (xor (pixels.getD ((y + r) % 32 * 64 + (x + c) % 64) false)
              true)).getD (b * 64 + a) false =
          (fun a b =>
            if a = (x + c) % 64 ∧ b = (y + r) % 32 then
              xor (g ((x + c) % 64) ((y + r) % 32)) true
            else g a b) a b := by
        intro a b ha hb
        dsimp only
        by_cases heq : a = (x + c) % 64 ∧ b = (y + r) % 32
        · rw [if_pos heq]
          have hi : b * 64 + a = (y + r) % 32 * 64 + (x + c) % 64 := by
            rw [heq.1, heq.2]
          rw [hi, getD_set_self _ _ _ _ hidx, hold]
        · rw [if_neg heq]
          rw [getD_set_ne _ _ _ (by omega)]
          exact hrel a b ha hb
      exact ih _ _ _ x y r byte hlen2 hrel2
    · rw [if_neg hbit, if_neg hbit]
      exact ih pixels g coll x y r byte hlen hrel

theorem drawSpriteRows_sim (sprite : List Nat) :
    ∀ (pixels : List Bool) (g : Nat → Nat → Bool) (coll : Bool)
      (x y row : Nat),
      pixels.length = DISPLAY_PIXELS →
      (∀ a b, a < 64 → b < 32 → pixels.getD (b * 64 + a) false = g a b) →
      ∃ out, drawSpriteRows pixels coll x y row sprite = .ok out ∧
        out.1.length = DISPLAY_PIXELS ∧
        out.2 = (specDrawRows g coll x y row sprite).2 ∧
        (∀ a b, a < 64 → b < 32 →
          out.1.getD (b * 64 + a) false =
            (specDrawRows g coll x y row sprite).1 a b) := by
  induction sprite with
  | nil =>
    intro pixels g coll x y row hlen hrel
    exact ⟨(pixels, coll), rfl, hlen, rfl, hrel⟩
  | cons byte rest ih =>
    intro pixels g coll x y row hlen hrel
    have hrow : (y + row % 256) % 256 % DISPLAY_HEIGHT = (y + row) % 32 := by
      rw [DISPLAY_HEIGHT]; omega
    rw [drawSpriteRows, specDrawRows, hrow]
    obtain ⟨out1, hout1, hlen1, hcoll1, hrel1⟩ :=
      drawSpriteCols_sim (List.range 8) pixels g coll x y row byte hlen hrel
    obtain ⟨p1, c1⟩ := out1
    dsimp only at hlen1 hcoll1 hrel1
    simp only [hout1]
    rw [← hcoll1]
    exact ih p1 (specDrawBits g coll x y row byte (List.range 8)).1 c1
      x y (row + 1) hlen1 hrel1

/-- C3: for every starting coordinate pair, every sprite byte list and
every well-formed display, `draw_sprite` never fails, and both its pixel
effect and its collision result agree with the specification model that
XORs each set sprite bit (row `r`, column `c`, MSB first) into the cell at
`((x+c) mod 64, (y+r) mod 32)` and reports a collision exactly when at
least one such XOR turned a cell from on to off. -/
theorem draw_sprite_spec_correspondence (d : SoftwareDisplay) (x y : Nat)
    (sprite : List Nat) (hlen : d.pixels.length = DISPLAY_PIXELS) :
    ∃ out, d.draw_sprite x y sprite = .ok out ∧
      out.2 = (specDrawSprite d.grid x y sprite).2 ∧
      ∀ a b, a < 64 → b < 32 →
        out.1.grid a b = (specDrawSprite d.grid x y sprite).1 a b := by
  obtain ⟨out, hout, hlenout, hcoll, hrel⟩ :=
    drawSpriteRows_sim sprite d.pixels d.grid false x y 0 hlen
      (fun a b _ _ => rfl)
  obtain ⟨p1, c1⟩ := out
  rw [SoftwareDisplay.draw_sprite]
  simp only [hout]
  refine ⟨_, rfl, hcoll, ?_⟩
  intro a b ha hb
  exact hrel a b ha hb

/-- Witness for C3: the spec's wraparound example, a one-row sprite
`0b11000000` drawn at `(63, 0)` on the fresh display. -/
theorem draw_sprite_spec_correspondence_witness :
    ∃ out, SoftwareDisplay.new.draw_sprite 63 0 [0b11000000] = .ok out ∧
      out.2 = (specDrawSprite SoftwareDisplay.new.grid 63 0 [0b11000000]).2 ∧
      ∀ a b, a < 64 → b < 32 →
        out.1.grid a b =
          (specDrawSprite SoftwareDisplay.new.grid 63 0 [0b11000000]).1 a b :=
  draw_sprite_spec_correspondence SoftwareDisplay.new 63 0 [0b11000000]
    (by simp [SoftwareDisplay.new])

end Chip8
